import Mathlib

/-!
AWS Secrets Manager credential resolution (`lib/cloud/aws/secrets_manager.go`)

A shallow embedding of `GetSecret` and the properties of its resolution policy.

Conventions of the embedding

* A Go `string` is a sequence of bytes, `GoString := List UInt8`.
* A Go map is `Option (List (key × value))`: `none` is the nil map, `some es` a
  map holding the entries `es`.  The order of `es` carries no meaning: every
  `range` statement asks a `RangeOrder` for the order in which the entries are
  visited, and the theorems quantify over every such order.
* The libraries the function calls (AWS SDK, `encoding/json`, `fmt` with the
  verb `%v`, the process environment) are the fields of a `World`.
* A `trace` error keeps its format string and arguments apart.
* `GetSecret` returns both Go results and the list of its calls of the client
  method `GetSecretValue`; the requests the client sends to the store for a call
  are followed by `GetSecretOnStore`.
-/

namespace Aws

/-! ## Strings and maps -/

/-- A Go string: an immutable sequence of bytes, not necessarily valid UTF-8. -/
abbrev GoString := List UInt8

/-- An ASCII string literal of the source, as a Go string. -/
def lit (s : String) : GoString := s.toList.map (fun c => UInt8.ofNat c.toNat)

/-- Entries of a non-nil Go map with string keys. -/
abbrev Entries (V : Type) := List (GoString × V)

/-- A Go map with string keys; `none` is the nil map. -/
abbrev GoMap (V : Type) := Option (Entries V)

/-- Index expression `m[k]` with the comma-ok form, on the entries of a map. -/
def Entries.get {V : Type} : Entries V → GoString → Option V
  | [], _ => none
  | (k', v) :: rest, k => if k' = k then some v else Entries.get rest k

/-- Assignment `m[k] = v` on the entries of a map: the key is bound to `v` and
every other binding is kept. -/
def Entries.set {V : Type} (m : Entries V) (k : GoString) (v : V) : Entries V :=
  (k, v) :: m.filter (fun e => decide (e.1 ≠ k))

/-- The entries of a Go map; the nil map has none. -/
def GoMap.entries {V : Type} (m : GoMap V) : Entries V := m.getD []

/-- Builtin `len(m)`; zero for the nil map. -/
def GoMap.len {V : Type} (m : GoMap V) : Nat := m.entries.length

/-- Index expression `m[k]` with the comma-ok form; a nil map holds no key. -/
def GoMap.get {V : Type} (m : GoMap V) (k : GoString) : Option V := m.entries.get k

/-- The order in which the two `range` statements of `GetSecret` visit the
entries of their map.  Go leaves the order unspecified, so any function that
returns a permutation of the entries is a possible order. -/
structure RangeOrder where
  fields : Entries GoString → Entries GoString
  extracted : Entries GoString → Entries GoString

/-- A range order visits every entry of the map exactly once. -/
def RangeOrder.Valid (ρ : RangeOrder) : Prop :=
  (∀ m, (ρ.fields m).Perm m) ∧ (∀ m, (ρ.extracted m).Perm m)

/-- The range order that visits the entries as they are listed. -/
def RangeOrder.listed : RangeOrder := ⟨id, id⟩

/-- The range order that visits the field map as listed and the extraction set
in reverse. -/
def RangeOrder.reversed : RangeOrder := ⟨id, List.reverse⟩

/-- The range order that visits the field map in reverse and the extraction set
as listed. -/
def RangeOrder.fieldsReversed : RangeOrder := ⟨List.reverse, id⟩

/-! ## JSON values and their rendering -/

/-- A finite `float64`, the value `(-1)^neg * mant * 2^exp`.  `encoding/json`
only produces finite numbers. -/
structure Float64 where
  neg : Bool
  mant : Nat
  exp : Int

/-- What `json.Unmarshal` stores in an `interface{}`. -/
inductive JsonValue where
  | null
  | bool (b : Bool)
  | number (f : Float64)
  | string (s : GoString)
  | array (xs : List JsonValue)
  | object (m : List (GoString × JsonValue))

/-- The integer nearest to `mant * 2^exp`, ties to even, as `strconv` rounds a
float to zero decimals. -/
def roundHalfEven (mant : Nat) (exp : Int) : Nat :=
  match exp with
  | Int.ofNat e => mant * 2 ^ e
  | Int.negSucc k =>
    let d := 2 ^ (k + 1)
    let q := mant / d
    let r := mant % d
    if 2 * r < d then q
    else if d < 2 * r then q + 1
    else if q % 2 = 0 then q else q + 1

/-- The decimal numeral of a natural number, as bytes. -/
def decimal (n : Nat) : GoString := (Nat.toDigits 10 n).map (fun c => UInt8.ofNat c.toNat)

/-- Call `fmt.Sprintf("%.0f", v)`: sign, then the rounded magnitude in decimal,
without a decimal point. -/
def sprintfF0 (v : Float64) : GoString :=
  (if v.neg then lit "-" else []) ++ decimal (roundHalfEven v.mant v.exp)

/-- Function `strings.TrimSuffix`. -/
def TrimSuffix (s suffix : GoString) : GoString :=
  if suffix.isSuffixOf s then s.take (s.length - suffix.length) else s

/-! ## Errors -/

/-- An error value produced by a library other than `trace`: the AWS SDK or
`encoding/json`.  None of them implements the class interfaces of `trace`. -/
inductive ExtErr where
  | awsConfig (msg : GoString)
  | awsAPI (msg : GoString)
  | jsonSyntax (msg : GoString)
  | jsonUnmarshalType (msg : GoString)
  deriving DecidableEq

/-- The errors `GetSecret` returns.  `badParameter` and `notFound` are the
results of `trace.BadParameter` and `trace.NotFound`, with the format string and
its arguments; `wrap` is `trace.Wrap` applied to a library error. -/
inductive Error where
  | badParameter (format : GoString) (args : List GoString)
  | notFound (format : GoString) (args : List GoString)
  | wrap (cause : ExtErr) (message : GoString)
  deriving DecidableEq

/-- Predicate `trace.IsBadParameter`: wrapping keeps the class of the cause, and
a library error has none. -/
def Error.IsBadParameter : Error → Bool
  | .badParameter _ _ => true
  | _ => false

/-- Predicate `trace.IsNotFound`. -/
def Error.IsNotFound : Error → Bool
  | .notFound _ _ => true
  | _ => false

/-! ## The world outside the function -/

/-- The options handed to `config.LoadDefaultConfig`: the region and, under
LocalStack, the endpoint of the custom resolver. -/
structure LoadOptions where
  region : GoString
  endpoint : Option GoString
  deriving DecidableEq

/-- The two payload fields of `secretsmanager.GetSecretValueOutput` the function
reads; `none` is a nil pointer, respectively a nil slice. -/
structure GetSecretValueOutput where
  SecretString : Option GoString
  SecretBinary : Option (List UInt8)
  deriving DecidableEq

/-- The libraries and the environment `GetSecret` calls into. -/
structure World where
  /-- Value of `os.Getenv("LOCALSTACK")`. -/
  localstack : GoString
  /-- Error of `config.LoadDefaultConfig`, `none` when the configuration loads. -/
  LoadDefaultConfig : LoadOptions → Option ExtErr
  /-- Store read `client.GetSecretValue` of a client built from the options. -/
  GetSecretValue : LoadOptions → GoString → Except ExtErr GetSecretValueOutput
  /-- Result of `json.Unmarshal` into a nil `map[string]interface{}`: an error for
  malformed text and for a JSON array, string, number or boolean; the nil map
  for the JSON literal null; the decoded map for a JSON object. -/
  Unmarshal : GoString → Except ExtErr (GoMap JsonValue)
  /-- Call `fmt.Sprintf("%v", v)`. -/
  SprintV : JsonValue → GoString

/-- Function `strings.ToLower` on one byte of ASCII text. -/
def toLowerByte (b : UInt8) : UInt8 :=
  if 65 ≤ b.toNat ∧ b.toNat ≤ 90 then UInt8.ofNat (b.toNat + 32) else b

/-- Function `strings.ToLower`, on ASCII text. -/
def ToLower (s : GoString) : GoString := s.map toLowerByte

/-! ## GetSecret -/

/-- The two results of `GetSecret`, and in `reads` the secret id of every call of
the client method `GetSecretValue` it reached.  One call of the client may send
several requests to the store; those are counted by `GetSecretOnStore`. -/
structure Ret where
  val : GoString
  err : Option Error
  reads : List GoString
  deriving DecidableEq

/-- The conversion of a payload value to a string (the type switch in the
extraction loop). -/
def strVal (w : World) : JsonValue → GoString
  | .string v => v
  | .number v => TrimSuffix (TrimSuffix (sprintfF0 v) (lit ".0")) (lit ".0")
  | v => w.SprintV v

/-- The output key of a field-map entry: the alias when non-empty, else the
source key. -/
def outKey (key aliasName : GoString) : GoString := if aliasName ≠ [] then aliasName else key

/-- The extraction loop over the field-map entries in visiting order: each
source key is looked up in the payload; a missing key ends the call with
NotFound, a found value is stored under the alias, or the key when the alias is
empty. -/
def extractLoop (w : World) (secretMap : GoMap JsonValue) :
    List (GoString × GoString) → Entries GoString → Except Error (Entries GoString)
  | [], extracted => .ok extracted
  | (key, aliasName) :: rest, extracted =>
    match secretMap.get key with
    | some val =>
      if aliasName ≠ [] then extractLoop w secretMap rest (extracted.set aliasName (strVal w val))
      else extractLoop w secretMap rest (extracted.set key (strVal w val))
    | none => .error (.notFound (lit "key %q not found in secret JSON") [key])

/-- The fallback of JSON mode: the keys password and Password, accepted only
when they hold a string. -/
def passwordFallback (secretMap : GoMap JsonValue) : GoString × Option Error :=
  match secretMap.get (lit "password") with
  | some (.string str) => (str, none)
  | _ =>
    match secretMap.get (lit "Password") with
    | some (.string str) => (str, none)
    | _ => ([], some (.badParameter
        (lit "no password field found in secret JSON and no fields specified") []))

/-- The part of `GetSecret` after the store read: the interpretation of the
fetched secret under the mode and the field map. -/
def resolve (w : World) (ρ : RangeOrder) (result : GetSecretValueOutput) (mode : GoString)
    (fields : GoMap GoString) : GoString × Option Error :=
  if mode = lit "string" ∨ mode = lit "" then
    match result.SecretString with
    | some s => (s, none)
    | none =>
      match result.SecretBinary with
      | some b => (b, none)
      | none => ([], some (.badParameter (lit "secret has no string or binary value") []))
  else if mode = lit "json" then
    match result.SecretString with
    | none => ([], some (.badParameter
        (lit "secret value is not a string (required for JSON mode)") []))
    | some s =>
      match w.Unmarshal s with
      | .error e => ([], some (.wrap e (lit "failed to parse secret as JSON")))
      | .ok secretMap =>
        if 0 < fields.len then
          match extractLoop w secretMap (ρ.fields fields.entries) [] with
          | .error e => ([], some e)
          | .ok extracted =>
            match extracted.get (lit "password") with
            | some password => (password, none)
            | none =>
              match ρ.extracted extracted with
              | (_, val) :: _ => (val, none)
              | [] => passwordFallback secretMap
        else passwordFallback secretMap
  else ([], some (.badParameter (lit "invalid mode: %q (must be 'string' or 'json')") [mode]))

/-- The options `GetSecret` builds for `config.LoadDefaultConfig`. -/
def cfgOpts (w : World) (region : GoString) : LoadOptions :=
  { region := region
    endpoint := if ToLower w.localstack = lit "true" then some (lit "http://localhost:4566")
      else none }

/-- Function `GetSecret`. -/
def GetSecret (w : World) (ρ : RangeOrder) (region secretID mode : GoString)
    (fields : GoMap GoString) : Ret :=
  if region = lit "" then
    ⟨[], some (.badParameter (lit "region is required") []), []⟩
  else if secretID = lit "" then
    ⟨[], some (.badParameter (lit "secret_id is required") []), []⟩
  else
    match w.LoadDefaultConfig (cfgOpts w region) with
    | some err => ⟨[], some (.wrap err (lit "failed to load AWS config")), []⟩
    | none =>
      match w.GetSecretValue (cfgOpts w region) secretID with
      | .error err =>
        ⟨[], some (.wrap err (lit "failed to get secret value from AWS Secrets Manager")),
          [secretID]⟩
      | .ok result =>
        let r := resolve w ρ result mode fields
        ⟨r.1, r.2, [secretID]⟩

/-! ## Sample worlds and payloads -/

/-- A world whose configuration loads, whose store returns `out` for every
secret id, and whose JSON decoder yields `decoded` on `text` and rejects any
other text as malformed.  Its `SprintV` is exact on null and on booleans only. -/
def sampleWorld (out : GetSecretValueOutput) (text : GoString)
    (decoded : Except ExtErr (GoMap JsonValue)) : World :=
  { localstack := []
    LoadDefaultConfig := fun _ => none
    GetSecretValue := fun _ _ => .ok out
    Unmarshal := fun s => if s = text then decoded
      else .error (.jsonSyntax (lit "invalid character"))
    SprintV := fun v =>
      match v with
      | .bool true => lit "true"
      | .bool false => lit "false"
      | .null => lit "<nil>"
      | _ => lit "[]" }

/-- The payload text of the JSON-mode test. -/
def loginText : GoString :=
  lit "\x7b\"username\":\"admin\",\"password\":\"secret-password\",\"host\":\"localhost\"\x7d"

/-- The object the payload text of the JSON-mode test decodes to. -/
def loginObject : Entries JsonValue :=
  [(lit "username", .string (lit "admin")),
   (lit "password", .string (lit "secret-password")),
   (lit "host", .string (lit "localhost"))]

/-- The world of the JSON-mode test: the store holds the login payload. -/
def loginWorld : World := sampleWorld ⟨some loginText, none⟩ loginText (.ok (some loginObject))

/-- The field map with the aliases h and p for host and password. -/
def hostPasswordFields : GoMap GoString :=
  some [(lit "host", lit "h"), (lit "password", lit "p")]

/-- A payload with two keys, for a field map that stores both under the output
key password. -/
def twoKeyText : GoString := lit "\x7b\"a\":\"1\",\"password\":\"2\"\x7d"

/-- The object the two-key payload decodes to. -/
def twoKeyObject : Entries JsonValue :=
  [(lit "a", .string (lit "1")), (lit "password", .string (lit "2"))]

/-- The world whose store holds the two-key payload. -/
def twoKeyWorld : World := sampleWorld ⟨some twoKeyText, none⟩ twoKeyText (.ok (some twoKeyObject))

/-- A field map with two entries whose output key is password. -/
def twoPasswordFields : GoMap GoString :=
  some [(lit "a", lit "password"), (lit "password", lit "")]

/-- A malformed payload, and the world whose store holds it. -/
def malformedText : GoString := lit "\x7b\"password\":"

/-- The world whose store holds the malformed payload. -/
def malformedWorld : World :=
  sampleWorld ⟨some malformedText, none⟩ malformedText
    (.error (.jsonSyntax (lit "unexpected end of JSON input")))

/-- A payload whose only key differs from password in case. -/
def upperText : GoString := lit "\x7b\"PASSWORD\":\"x\"\x7d"

/-- The world whose store holds the upper-case payload. -/
def upperWorld : World :=
  sampleWorld ⟨some upperText, none⟩ upperText (.ok (some [(lit "PASSWORD", .string (lit "x"))]))

/-- A world whose store returns a secret with neither a text nor a binary blob. -/
def emptyWorld : World := sampleWorld ⟨none, none⟩ [] (.ok none)

/-- A world whose store returns only a binary blob, two bytes that are not
valid UTF-8. -/
def binaryWorld : World := sampleWorld ⟨none, some [255, 254]⟩ [] (.ok none)

/-! ## Numbers as values, and error messages -/

/-- The rational number a finite `float64` stands for. -/
def Float64.toRat (v : Float64) : ℚ :=
  (if v.neg then -1 else 1) * (v.mant : ℚ) * (2 : ℚ) ^ v.exp

/-- The plain decimal numeral of an integer: a minus sign for a negative
integer, then the decimal digits of its magnitude. -/
def intDecimal (n : Int) : GoString :=
  if n < 0 then lit "-" ++ decimal n.natAbs else decimal n.natAbs

/-- A lower-case hexadecimal digit, as `strconv` writes it in an escape. -/
def hexDigit (n : Nat) : UInt8 :=
  if n < 10 then UInt8.ofNat (48 + n) else UInt8.ofNat (87 + n)

/-- The rendering of one ASCII byte inside `strconv.Quote`: the double quote and
the backslash are escaped with a backslash, a printable byte stands for itself,
a control byte is written with its letter escape or in hexadecimal. -/
def quoteByte (b : UInt8) : GoString :=
  if b = 34 ∨ b = 92 then [92, b]
  else if 32 ≤ b.toNat ∧ b.toNat < 127 then [b]
  else if b = 7 then [92, 97]
  else if b = 8 then [92, 98]
  else if b = 12 then [92, 102]
  else if b = 10 then [92, 110]
  else if b = 13 then [92, 114]
  else if b = 9 then [92, 116]
  else if b = 11 then [92, 118]
  else [92, 120, hexDigit (b.toNat / 16), hexDigit (b.toNat % 16)]

/-- Function `strconv.Quote`, the verb `%q` on a string.  On ASCII text the
result is the text between double quotes with every byte rendered by
`quoteByte`; on a string with a byte outside ASCII the result depends on the
Unicode tables and is given by `quoteUnicode`. -/
def Quote (quoteUnicode : GoString → GoString) (s : GoString) : GoString :=
  if s.all (fun b => decide (b.toNat < 128)) then [34] ++ s.flatMap quoteByte ++ [34]
  else quoteUnicode s

/-- Function `fmt.Sprintf` on the format strings of this file, whose only verb is
`%q`: each `%q` is replaced by the quoted form of the next argument. -/
def Sprintf (quoteUnicode : GoString → GoString) : GoString → List GoString → GoString
  | [], _ => []
  | [c], _ => [c]
  | c :: d :: rest, args =>
    if c = 37 ∧ d = 113 then
      match args with
      | a :: args' => Quote quoteUnicode a ++ Sprintf quoteUnicode rest args'
      | [] => c :: Sprintf quoteUnicode (d :: rest) []
    else c :: Sprintf quoteUnicode (d :: rest) args

/-- A string of printable ASCII bytes other than the double quote and the
backslash: `strconv.Quote` leaves such bytes as they are. -/
def Plain (s : GoString) : Prop :=
  ∀ b ∈ s, 32 ≤ b.toNat ∧ b.toNat < 127 ∧ b ≠ 34 ∧ b ≠ 92

/-! ## Validation of the auth configuration -/

/-- The AWS part of the auth configuration of a database. -/
structure DatabaseAuthAWS where
  Region : GoString
  SecretID : GoString
  Mode : GoString
  Fields : GoMap GoString

/-- The auth configuration of a database; `AuthType` is the field `Type`. -/
structure DatabaseAuth where
  AuthType : GoString
  AWS : DatabaseAuthAWS

/-- Modelled from the spec: the auth rules of `Database.CheckAndSetDefaults`
(package `servicecfg`), whose source is not among the files; only its test is.
The rules apply when the type is `aws_sm`: the region must be non-empty, the
secret id must be non-empty, the mode must be empty, `string` or `json`; the
field map is not constrained.  The result is `none` when validation passes and
otherwise the field name the error message mentions. -/
def checkAuth (a : DatabaseAuth) : Option GoString :=
  if a.AuthType = lit "aws_sm" then
    if a.AWS.Region = lit "" then some (lit "region")
    else if a.AWS.SecretID = lit "" then some (lit "secret_id")
    else if a.AWS.Mode = lit "" ∨ a.AWS.Mode = lit "string" ∨ a.AWS.Mode = lit "json" then none
    else some (lit "mode")
  else none

/-! ## More sample worlds -/

/-- The text of a payload whose port is the JSON number minus zero. -/
def minusZeroText : GoString := lit "\x7b\"port\":-0\x7d"

/-- The world whose store holds the minus-zero payload; the decoder yields the
`float64` negative zero for the JSON number. -/
def minusZeroWorld : World :=
  sampleWorld ⟨some minusZeroText, none⟩ minusZeroText
    (.ok (some [(lit "port", .number ⟨true, 0, 0⟩)]))

/-- The text of a payload whose port is the JSON number 5432.0. -/
def portText : GoString := lit "\x7b\"port\":5432.0\x7d"

/-- The `float64` 5432, with its 53-bit significand. -/
def port5432 : Float64 := ⟨false, 5432 * 2 ^ 40, -40⟩

/-- The world whose store holds the port payload. -/
def portWorld : World :=
  sampleWorld ⟨some portText, none⟩ portText (.ok (some [(lit "port", .number port5432)]))

/-- A world whose store returns a binary blob holding the login payload and no
text blob. -/
def binaryLoginWorld : World :=
  sampleWorld ⟨none, some loginText⟩ loginText (.ok (some loginObject))

/-- The world whose store holds the JSON literal null. -/
def nullWorld : World := sampleWorld ⟨some (lit "null"), none⟩ (lit "null") (.ok none)

/-- A payload whose key password holds a number and whose key Password holds a
string. -/
def mixedObject : Entries JsonValue :=
  [(lit "password", .number ⟨false, 7, 0⟩), (lit "Password", .string (lit "s3cret"))]

/-- The world whose store holds the mixed payload. -/
def mixedWorld : World :=
  sampleWorld ⟨some (lit "mixed"), none⟩ (lit "mixed") (.ok (some mixedObject))

/-- A payload with the keys pw and password. -/
def pwObject : Entries JsonValue :=
  [(lit "pw", .string (lit "right")), (lit "password", .string (lit "other"))]

/-- The world whose store holds the payload with the keys pw and password. -/
def pwWorld : World := sampleWorld ⟨some (lit "pw"), none⟩ (lit "pw") (.ok (some pwObject))

/-! ## The decoding of a JSON number -/

/-- A `float64` of the binary64 format: a significand below `2 ^ 53` and an
exponent within the range of the format. -/
def Float64.InFormat (v : Float64) : Prop :=
  v.mant < 2 ^ 53 ∧ -1074 ≤ v.exp ∧ v.exp ≤ 971

/-- The decoding of a JSON number by `strconv.ParseFloat`: the `float64` stored
is one nearest to the number `x` written in the payload. -/
def Float64.Nearest (v : Float64) (x : ℚ) : Prop :=
  v.InFormat ∧ ∀ u : Float64, u.InFormat → |v.toRat - x| ≤ |u.toRat - x|

/-! ## The store behind the client -/

/-- The answer of the store to one request of the client.  The standard retryer
of the SDK sends the request again after a `retryable` answer (a server error,
throttling, a timeout) and gives up after a `terminal` one (an unknown secret, a
denied access). -/
inductive Response where
  | ok (out : GetSecretValueOutput)
  | retryable (e : ExtErr)
  | terminal (e : ExtErr)

/-- The store as the client reaches it: the answer to a request may depend on
the requests received before, and every request received is recorded. -/
structure Store where
  answer : List GoString → GoString → Response
  received : List GoString

/-- One request for a secret: the store answers and records the request. -/
def Store.send (s : Store) (secretID : GoString) : Response × Store :=
  (s.answer s.received secretID, { s with received := s.received ++ [secretID] })

/-- Constant `retry.DefaultMaxAttempts` of the SDK: the attempts of the standard
retryer, which a client built without a retryer option keeps. -/
def DefaultMaxAttempts : Nat := 3

/-- The message of a library error. -/
def ExtErr.msg : ExtErr → GoString
  | .awsConfig m => m
  | .awsAPI m => m
  | .jsonSyntax m => m
  | .jsonUnmarshalType m => m

/-- The error of the retryer when the last attempt allowed ends in a retryable
error (`retry.MaxAttemptsError`). -/
def maxAttemptsError (e : ExtErr) : ExtErr :=
  .awsAPI (lit "exceeded maximum number of attempts, " ++ decimal DefaultMaxAttempts ++
    lit ", " ++ e.msg)

/-- The attempts of one call of the client: a request is sent; a success or a
terminal error ends the call; a retryable error is followed by another attempt
while retries are left. -/
def attempts : Nat → Store → GoString → Except ExtErr GetSecretValueOutput × Store
  | 0, s, secretID =>
    match s.send secretID with
    | (.ok out, s') => (.ok out, s')
    | (.terminal e, s') => (.error e, s')
    | (.retryable e, s') => (.error (maxAttemptsError e), s')
  | retries + 1, s, secretID =>
    match s.send secretID with
    | (.ok out, s') => (.ok out, s')
    | (.terminal e, s') => (.error e, s')
    | (.retryable _, s') => attempts retries s' secretID

/-- Call `client.GetSecretValue(ctx, input)` of the client `GetSecret` builds:
the default retryer allows `DefaultMaxAttempts` attempts. -/
def clientGetSecretValue (s : Store) (secretID : GoString) :
    Except ExtErr GetSecretValueOutput × Store :=
  attempts (DefaultMaxAttempts - 1) s secretID

/-- Function `GetSecret`, with the store behind the client threaded through
the call: the results, and the store with the requests it has received. -/
def GetSecretOnStore (w : World) (store : Store) (ρ : RangeOrder)
    (region secretID mode : GoString) (fields : GoMap GoString) :
    (GoString × Option Error) × Store :=
  if region = lit "" then
    (([], some (.badParameter (lit "region is required") [])), store)
  else if secretID = lit "" then
    (([], some (.badParameter (lit "secret_id is required") [])), store)
  else
    match w.LoadDefaultConfig (cfgOpts w region) with
    | some err => (([], some (.wrap err (lit "failed to load AWS config"))), store)
    | none =>
      match clientGetSecretValue store secretID with
      | (.error err, store') =>
        (([], some (.wrap err (lit "failed to get secret value from AWS Secrets Manager"))),
          store')
      | (.ok result, store') => (resolve w ρ result mode fields, store')

/-- The world in which the client method `GetSecretValue` is a call of the
client on the given store. -/
def Store.world (store : Store) (w : World) : World :=
  { w with GetSecretValue := fun _ secretID => (clientGetSecretValue store secretID).1 }

theorem lit_empty : lit "" = [] := rfl

theorem Entries.get_filter_ne {V : Type} (m : Entries V) (k k' : GoString) (h : k ≠ k') :
    Entries.get (m.filter (fun e => decide (e.1 ≠ k))) k' = Entries.get m k' := by
  induction m with
  | nil => rfl
  | cons e rest ih =>
    obtain ⟨a, v⟩ := e
    by_cases hak : a = k
    · subst hak
      have hf : (decide ((a, v).1 ≠ a)) = false := by simp
      rw [List.filter_cons_of_neg (by simp), ih]
      simp [Entries.get, h]
    · rw [List.filter_cons_of_pos (by simpa using hak)]
      simp only [Entries.get]
      rw [ih]

theorem Entries.get_set {V : Type} (m : Entries V) (k k' : GoString) (v : V) :
    (m.set k v).get k' = if k = k' then some v else m.get k' := by
  by_cases h : k = k'
  · simp [Entries.set, Entries.get, h]
  · simp only [Entries.set, Entries.get, h, if_false]
    exact Entries.get_filter_ne m k k' h

theorem Entries.mem_of_get {V : Type} (m : Entries V) (k : GoString) (v : V)
    (h : m.get k = some v) : (k, v) ∈ m := by
  induction m with
  | nil => simp [Entries.get] at h
  | cons e rest ih =>
    obtain ⟨a, x⟩ := e
    by_cases hak : a = k
    · simp [Entries.get, hak] at h
      simp [hak, h]
    · simp only [Entries.get, hak, if_false] at h
      exact List.mem_cons_of_mem _ (ih h)

theorem Entries.mem_set {V : Type} (m : Entries V) (k : GoString) (v : V) (e : GoString × V)
    (h : e ∈ m.set k v) : e = (k, v) ∨ e ∈ m := by
  simp only [Entries.set, List.mem_cons, List.mem_filter] at h
  rcases h with h | h
  · exact Or.inl h
  · exact Or.inr h.1

theorem extractLoop_cons (w : World) (secretMap : GoMap JsonValue) (key aliasName : GoString)
    (rest : List (GoString × GoString)) (extracted : Entries GoString) (val : JsonValue)
    (h : secretMap.get key = some val) :
    extractLoop w secretMap ((key, aliasName) :: rest) extracted =
      extractLoop w secretMap rest (extracted.set (outKey key aliasName) (strVal w val)) := by
  simp only [extractLoop, h, outKey]
  split <;> rfl

theorem extractLoop_missing (w : World) (secretMap : GoMap JsonValue)
    (l : List (GoString × GoString)) (extracted : Entries GoString)
    (h : ∃ e ∈ l, secretMap.get e.1 = none) :
    ∃ key aliasName, (key, aliasName) ∈ l ∧ secretMap.get key = none ∧
      extractLoop w secretMap l extracted =
        .error (.notFound (lit "key %q not found in secret JSON") [key]) := by
  induction l generalizing extracted with
  | nil => simp at h
  | cons e rest ih =>
    obtain ⟨key, al⟩ := e
    cases hk : secretMap.get key with
    | none =>
      exact ⟨key, al, List.mem_cons_self _ _, hk, by simp [extractLoop, hk]⟩
    | some val =>
      have hrest : ∃ e ∈ rest, secretMap.get e.1 = none := by
        obtain ⟨e, he, hn⟩ := h
        rcases List.mem_cons.mp he with rfl | he
        · simp [hk] at hn
        · exact ⟨e, he, hn⟩
      obtain ⟨k, a, hmem, hnone, heq⟩ := ih (extracted.set (outKey key al) (strVal w val)) hrest
      exact ⟨k, a, List.mem_cons_of_mem _ hmem, hnone, by rw [extractLoop_cons w _ _ _ _ _ _ hk, heq]⟩

theorem extractLoop_present (w : World) (secretMap : GoMap JsonValue)
    (l : List (GoString × GoString)) (extracted : Entries GoString)
    (h : ∀ e ∈ l, secretMap.get e.1 ≠ none) :
    ∃ ex, extractLoop w secretMap l extracted = .ok ex ∧
      (l ≠ [] → ex ≠ []) ∧
      ∀ p ∈ ex, p ∈ extracted ∨
        ∃ e ∈ l, ∃ v, secretMap.get e.1 = some v ∧ p = (outKey e.1 e.2, strVal w v) := by
  induction l generalizing extracted with
  | nil => exact ⟨extracted, rfl, by simp, fun p hp => Or.inl hp⟩
  | cons e rest ih =>
    obtain ⟨key, al⟩ := e
    cases hk : secretMap.get key with
    | none => exact absurd hk (h (key, al) (List.mem_cons_self _ _))
    | some val =>
      obtain ⟨ex, heq, hne, hmem⟩ := ih (extracted.set (outKey key al) (strVal w val))
        (fun e he => h e (List.mem_cons_of_mem _ he))
      refine ⟨ex, by rw [extractLoop_cons w _ _ _ _ _ _ hk, heq], ?_, ?_⟩
      · intro _
        by_cases hr : rest = []
        · subst hr
          simp only [extractLoop, Except.ok.injEq] at heq
          rw [← heq]
          simp [Entries.set]
        · exact hne hr
      · intro p hp
        rcases hmem p hp with h1 | ⟨e, he, v, hv, hpe⟩
        · rcases Entries.mem_set _ _ _ _ h1 with h2 | h2
          · exact Or.inr ⟨(key, al), List.mem_cons_self _ _, val, hk, h2⟩
          · exact Or.inl h2
        · exact Or.inr ⟨e, List.mem_cons_of_mem _ he, v, hv, hpe⟩

theorem extractLoop_get (w : World) (secretMap : GoMap JsonValue)
    (l : List (GoString × GoString)) (extracted ex : Entries GoString) (k s : GoString)
    (h : ∀ e ∈ l, ∃ v, secretMap.get e.1 = some v ∧ (outKey e.1 e.2 = k → strVal w v = s))
    (heq : extractLoop w secretMap l extracted = .ok ex) :
    ((∃ e ∈ l, outKey e.1 e.2 = k) → ex.get k = some s) ∧
      ((¬ ∃ e ∈ l, outKey e.1 e.2 = k) → ex.get k = extracted.get k) := by
  induction l generalizing extracted with
  | nil =>
    simp only [extractLoop, Except.ok.injEq] at heq
    subst heq
    simp
  | cons e rest ih =>
    obtain ⟨key, al⟩ := e
    obtain ⟨val, hk, hs⟩ := h (key, al) (List.mem_cons_self _ _)
    rw [extractLoop_cons w _ _ _ _ _ _ hk] at heq
    obtain ⟨h1, h2⟩ := ih (extracted.set (outKey key al) (strVal w val))
      (fun e he => h e (List.mem_cons_of_mem _ he)) heq
    by_cases hrest : ∃ e ∈ rest, outKey e.1 e.2 = k
    · refine ⟨fun _ => h1 hrest, fun hn => ?_⟩
      obtain ⟨e, he, hek⟩ := hrest
      exact absurd ⟨e, List.mem_cons_of_mem _ he, hek⟩ hn
    · have hget := h2 hrest
      rw [Entries.get_set] at hget
      constructor
      · rintro ⟨e, he, hek⟩
        rcases List.mem_cons.mp he with rfl | he
        · rw [hget, if_pos hek, hs hek]
        · exact absurd ⟨e, he, hek⟩ hrest
      · intro hn
        have hne : outKey key al ≠ k := fun hc => hn ⟨(key, al), List.mem_cons_self _ _, hc⟩
        rw [hget, if_neg hne]

/-! ## Lemmas on GetSecret -/

theorem GetSecret_fetched (w : World) (ρ : RangeOrder) (region secretID mode : GoString)
    (fields : GoMap GoString) (result : GetSecretValueOutput)
    (hr : region ≠ lit "") (hs : secretID ≠ lit "")
    (hc : w.LoadDefaultConfig (cfgOpts w region) = none)
    (hf : w.GetSecretValue (cfgOpts w region) secretID = .ok result) :
    GetSecret w ρ region secretID mode fields =
      ⟨(resolve w ρ result mode fields).1, (resolve w ρ result mode fields).2, [secretID]⟩ := by
  simp [GetSecret, hr, hs, hc, hf]

theorem json_ne_string : ¬ (lit "json" = lit "string" ∨ lit "json" = lit "") := by decide

theorem resolve_json (w : World) (ρ : RangeOrder) (b : Option (List UInt8)) (t : GoString)
    (fields : GoMap GoString) (secretMap : GoMap JsonValue)
    (hu : w.Unmarshal t = .ok secretMap) :
    resolve w ρ ⟨some t, b⟩ (lit "json") fields =
      if 0 < fields.len then
        match extractLoop w secretMap (ρ.fields fields.entries) [] with
        | .error e => ([], some e)
        | .ok extracted =>
          match extracted.get (lit "password") with
          | some password => (password, none)
          | none =>
            match ρ.extracted extracted with
            | (_, val) :: _ => (val, none)
            | [] => passwordFallback secretMap
      else passwordFallback secretMap := by
  simp only [resolve, json_ne_string, if_false, if_true, hu]

theorem resolve_json_no_fields (w : World) (ρ : RangeOrder) (b : Option (List UInt8))
    (t : GoString) (fields : GoMap GoString) (secretMap : GoMap JsonValue)
    (hu : w.Unmarshal t = .ok secretMap) (hl : fields = none ∨ fields = some []) :
    resolve w ρ ⟨some t, b⟩ (lit "json") fields = passwordFallback secretMap := by
  rw [resolve_json w ρ b t fields secretMap hu]
  rcases hl with rfl | rfl <;> simp [GoMap.len, GoMap.entries]

theorem resolve_json_fields_mem (w : World) (ρ : RangeOrder) (hρ : ρ.Valid)
    (b : Option (List UInt8)) (t : GoString) (fields : GoMap GoString)
    (secretMap : GoMap JsonValue) (hu : w.Unmarshal t = .ok secretMap)
    (hl : 0 < fields.len) (hp : ∀ e ∈ fields.entries, secretMap.get e.1 ≠ none) :
    ∃ e ∈ fields.entries, ∃ v, secretMap.get e.1 = some v ∧
      resolve w ρ ⟨some t, b⟩ (lit "json") fields = (strVal w v, none) := by
  have hperm := hρ.1 fields.entries
  have hne : ρ.fields fields.entries ≠ [] := by
    intro hc
    rw [hc] at hperm
    have := hperm.length_eq
    simp only [GoMap.len] at hl
    simp at this
    omega
  obtain ⟨ex, heq, hex, hmem⟩ := extractLoop_present w secretMap (ρ.fields fields.entries) []
    (fun e he => hp e (hperm.mem_iff.mp he))
  have key : ∀ p ∈ ex, ∃ e ∈ fields.entries, ∃ v, secretMap.get e.1 = some v ∧
      p.2 = strVal w v := by
    intro p hpm
    rcases hmem p hpm with h1 | ⟨e, he, v, hv, hpe⟩
    · simp at h1
    · exact ⟨e, hperm.mem_iff.mp he, v, hv, by rw [hpe]⟩
  rw [resolve_json w ρ b t fields secretMap hu, if_pos hl, heq]
  cases hg : ex.get (lit "password") with
  | some password =>
    obtain ⟨e, he, v, hv, hpe⟩ := key _ (Entries.mem_of_get ex _ _ hg)
    exact ⟨e, he, v, hv, by simp only [hg]; rw [← hpe]⟩
  | none =>
    have hperm2 := hρ.2 ex
    cases hr : ρ.extracted ex with
    | nil =>
      rw [hr] at hperm2
      exact absurd hperm2.symm.eq_nil (hex hne)
    | cons p rest =>
      have hpm : p ∈ ex := hperm2.mem_iff.mp (by rw [hr]; exact List.mem_cons_self _ _)
      obtain ⟨e, he, v, hv, hpe⟩ := key p hpm
      exact ⟨e, he, v, hv, by simp only [hg, hr]; rw [← hpe]⟩

theorem resolve_json_fields_password (w : World) (ρ : RangeOrder) (hρ : ρ.Valid)
    (b : Option (List UInt8)) (t : GoString) (fields : GoMap GoString)
    (secretMap : GoMap JsonValue) (s : GoString) (hu : w.Unmarshal t = .ok secretMap)
    (hl : 0 < fields.len)
    (hp : ∀ e ∈ fields.entries, ∃ v, secretMap.get e.1 = some v ∧
      (outKey e.1 e.2 = lit "password" → strVal w v = s))
    (hpw : ∃ e ∈ fields.entries, outKey e.1 e.2 = lit "password") :
    resolve w ρ ⟨some t, b⟩ (lit "json") fields = (s, none) := by
  have hperm := hρ.1 fields.entries
  obtain ⟨ex, heq, _, _⟩ := extractLoop_present w secretMap (ρ.fields fields.entries) []
    (fun e he => by
      obtain ⟨v, hv, _⟩ := hp e (hperm.mem_iff.mp he)
      simp [hv])
  have hget := (extractLoop_get w secretMap (ρ.fields fields.entries) [] ex (lit "password") s
    (fun e he => hp e (hperm.mem_iff.mp he)) heq).1
    (by
      obtain ⟨e, he, hk⟩ := hpw
      exact ⟨e, hperm.mem_iff.mpr he, hk⟩)
  rw [resolve_json w ρ b t fields secretMap hu, if_pos hl, heq]
  simp only [hget]

theorem RangeOrder.listed_valid : RangeOrder.listed.Valid :=
  ⟨fun _ => List.Perm.refl _, fun _ => List.Perm.refl _⟩

theorem RangeOrder.reversed_valid : RangeOrder.reversed.Valid :=
  ⟨fun _ => List.Perm.refl _, fun m => List.reverse_perm m⟩

theorem RangeOrder.fieldsReversed_valid : RangeOrder.fieldsReversed.Valid :=
  ⟨fun m => List.reverse_perm m, fun _ => List.Perm.refl _⟩

/-! ## String mode -/

/-- C1: for a non-empty region and secret id and a mode among the empty mode and
the mode string, when the configuration loads and the store read returns a text
blob t, GetSecret returns exactly t and no error, whatever the field map and the
binary blob. -/
theorem GetSecret_string_mode_text (w : World) (ρ : RangeOrder)
    (region secretID mode t : GoString) (fields : GoMap GoString) (b : Option (List UInt8))
    (hr : region ≠ lit "") (hs : secretID ≠ lit "")
    (hm : mode = lit "" ∨ mode = lit "string")
    (hc : w.LoadDefaultConfig (cfgOpts w region) = none)
    (hf : w.GetSecretValue (cfgOpts w region) secretID = .ok ⟨some t, b⟩) :
    GetSecret w ρ region secretID mode fields = ⟨t, none, [secretID]⟩ := by
  rw [GetSecret_fetched w ρ region secretID mode fields _ hr hs hc hf]
  rcases hm with rfl | rfl <;> simp [resolve]

theorem GetSecret_string_mode_text_witness :
    GetSecret loginWorld RangeOrder.listed (lit "us-east-1") (lit "test-secret") (lit "string")
      hostPasswordFields = ⟨loginText, none, [lit "test-secret"]⟩ :=
  GetSecret_string_mode_text loginWorld RangeOrder.listed (lit "us-east-1") (lit "test-secret")
    (lit "string") loginText hostPasswordFields none (by decide) (by decide) (Or.inr rfl) rfl rfl

/-- C10: in string mode, when the store returns no text blob but a binary blob b
(empty, or not valid UTF-8, included), GetSecret returns the string whose bytes
are exactly b and no error, whatever the field map. -/
theorem GetSecret_string_mode_binary (w : World) (ρ : RangeOrder)
    (region secretID mode : GoString) (fields : GoMap GoString) (b : List UInt8)
    (hr : region ≠ lit "") (hs : secretID ≠ lit "")
    (hm : mode = lit "" ∨ mode = lit "string")
    (hc : w.LoadDefaultConfig (cfgOpts w region) = none)
    (hf : w.GetSecretValue (cfgOpts w region) secretID = .ok ⟨none, some b⟩) :
    GetSecret w ρ region secretID mode fields = ⟨b, none, [secretID]⟩ := by
  rw [GetSecret_fetched w ρ region secretID mode fields _ hr hs hc hf]
  rcases hm with rfl | rfl <;> simp [resolve]

theorem GetSecret_string_mode_binary_witness :
    GetSecret binaryWorld RangeOrder.listed (lit "us-east-1") (lit "bin-secret") (lit "")
      hostPasswordFields = ⟨[255, 254], none, [lit "bin-secret"]⟩ :=
  GetSecret_string_mode_binary binaryWorld RangeOrder.listed (lit "us-east-1") (lit "bin-secret")
    (lit "") hostPasswordFields [255, 254] (by decide) (by decide) (Or.inl rfl) rfl rfl

/-- C9: when the store read succeeds but returns neither a text blob nor a binary
blob, GetSecret returns no credential and a BadParameter error, for every mode
string and every field map. -/
theorem GetSecret_no_blob (w : World) (ρ : RangeOrder)
    (region secretID mode : GoString) (fields : GoMap GoString)
    (hr : region ≠ lit "") (hs : secretID ≠ lit "")
    (hc : w.LoadDefaultConfig (cfgOpts w region) = none)
    (hf : w.GetSecretValue (cfgOpts w region) secretID = .ok ⟨none, none⟩) :
    ∃ e, GetSecret w ρ region secretID mode fields = ⟨[], some e, [secretID]⟩ ∧
      e.IsBadParameter = true := by
  rw [GetSecret_fetched w ρ region secretID mode fields _ hr hs hc hf]
  by_cases h1 : mode = lit "string" ∨ mode = lit ""
  · exact ⟨.badParameter (lit "secret has no string or binary value") [],
      by simp only [resolve, h1, if_true], rfl⟩
  · by_cases h2 : mode = lit "json"
    · subst h2
      exact ⟨.badParameter (lit "secret value is not a string (required for JSON mode)") [],
        by simp only [resolve, json_ne_string, if_true, if_false], rfl⟩
    · exact ⟨.badParameter (lit "invalid mode: %q (must be 'string' or 'json')") [mode],
        by simp only [resolve, h1, h2, if_false], rfl⟩

theorem GetSecret_no_blob_witness :
    ∃ e, GetSecret emptyWorld RangeOrder.listed (lit "us-east-1") (lit "void") (lit "yaml")
      hostPasswordFields = ⟨[], some e, [lit "void"]⟩ ∧ e.IsBadParameter = true :=
  GetSecret_no_blob emptyWorld RangeOrder.listed (lit "us-east-1") (lit "void") (lit "yaml")
    hostPasswordFields (by decide) (by decide) rfl rfl

/-! ## JSON mode with a field map -/

/-- C2, as the code behaves: with the field map that gives host the alias h and
password the alias p, and a payload object holding both keys, GetSecret succeeds
for every range order and returns the string form of the host value or the
string form of the password value; when the entry of password keeps the output
key password (its alias is empty or is password), GetSecret returns the string
form of the password value for every range order. -/
theorem GetSecret_host_password_aliases (w : World) (ρ : RangeOrder) (hρ : ρ.Valid)
    (region secretID t : GoString) (b : Option (List UInt8)) (obj : Entries JsonValue)
    (vh vp : JsonValue)
    (hr : region ≠ lit "") (hs : secretID ≠ lit "")
    (hc : w.LoadDefaultConfig (cfgOpts w region) = none)
    (hf : w.GetSecretValue (cfgOpts w region) secretID = .ok ⟨some t, b⟩)
    (hu : w.Unmarshal t = .ok (some obj))
    (hh : obj.get (lit "host") = some vh) (hp : obj.get (lit "password") = some vp) :
    (GetSecret w ρ region secretID (lit "json") hostPasswordFields
        = ⟨strVal w vh, none, [secretID]⟩ ∨
      GetSecret w ρ region secretID (lit "json") hostPasswordFields
        = ⟨strVal w vp, none, [secretID]⟩) ∧
    ∀ al, al = lit "" ∨ al = lit "password" →
      GetSecret w ρ region secretID (lit "json")
        (some [(lit "host", lit "h"), (lit "password", al)])
        = ⟨strVal w vp, none, [secretID]⟩ := by
  constructor
  · rw [GetSecret_fetched w ρ region secretID _ _ _ hr hs hc hf]
    have hall : ∀ e ∈ hostPasswordFields.entries, GoMap.get (some obj) e.1 ≠ none := by
      intro e he
      simp only [hostPasswordFields, GoMap.entries, Option.getD_some, List.mem_cons,
        List.mem_singleton, List.not_mem_nil, or_false] at he
      rcases he with rfl | rfl
      · simp [GoMap.get, GoMap.entries, hh]
      · simp [GoMap.get, GoMap.entries, hp]
    obtain ⟨e, he, v, hv, hres⟩ := resolve_json_fields_mem w ρ hρ b t hostPasswordFields
      (some obj) hu (by decide) hall
    simp only [hostPasswordFields, GoMap.entries, Option.getD_some, List.mem_cons,
      List.mem_singleton, List.not_mem_nil, or_false] at he
    rw [hres]
    rcases he with rfl | rfl
    · left
      simp only [GoMap.get, GoMap.entries, Option.getD_some, hh, Option.some.injEq] at hv
      rw [hv]
    · right
      simp only [GoMap.get, GoMap.entries, Option.getD_some, hp, Option.some.injEq] at hv
      rw [hv]
  · intro al hal
    rw [GetSecret_fetched w ρ region secretID _ _ _ hr hs hc hf,
      resolve_json_fields_password w ρ hρ b t _ (some obj) (strVal w vp) hu
        (by simp [GoMap.len, GoMap.entries])
        (by
          intro e he
          simp only [GoMap.entries, Option.getD_some, List.mem_cons, List.mem_singleton,
            List.not_mem_nil, or_false] at he
          rcases he with rfl | rfl
          · exact ⟨vh, by simp [GoMap.get, GoMap.entries, hh], fun h => absurd h (by decide)⟩
          · exact ⟨vp, by simp [GoMap.get, GoMap.entries, hp], fun _ => rfl⟩)
        ⟨(lit "password", al), by simp [GoMap.entries], by
          rcases hal with rfl | rfl <;> decide⟩]

theorem GetSecret_host_password_aliases_witness :
    (GetSecret loginWorld RangeOrder.listed (lit "us-east-1") (lit "json-secret") (lit "json")
        hostPasswordFields
        = ⟨strVal loginWorld (.string (lit "localhost")), none, [lit "json-secret"]⟩ ∨
      GetSecret loginWorld RangeOrder.listed (lit "us-east-1") (lit "json-secret") (lit "json")
        hostPasswordFields
        = ⟨strVal loginWorld (.string (lit "secret-password")), none, [lit "json-secret"]⟩) ∧
    ∀ al, al = lit "" ∨ al = lit "password" →
      GetSecret loginWorld RangeOrder.listed (lit "us-east-1") (lit "json-secret") (lit "json")
        (some [(lit "host", lit "h"), (lit "password", al)])
        = ⟨strVal loginWorld (.string (lit "secret-password")), none, [lit "json-secret"]⟩ :=
  GetSecret_host_password_aliases loginWorld RangeOrder.listed RangeOrder.listed_valid
    (lit "us-east-1") (lit "json-secret") loginText none loginObject
    (.string (lit "localhost")) (.string (lit "secret-password"))
    (by decide) (by decide) rfl rfl rfl rfl rfl

/-- C2 fails as stated: with the field map that gives host the alias h and
password the alias p, neither output key is password, and under the range order
that visits the extraction set in reverse GetSecret returns the host value of
the login payload, not its password value. -/
theorem GetSecret_host_password_aliases_returns_host :
    RangeOrder.reversed.Valid ∧
    loginWorld.Unmarshal loginText = .ok (some loginObject) ∧
    loginObject.get (lit "host") = some (.string (lit "localhost")) ∧
    loginObject.get (lit "password") = some (.string (lit "secret-password")) ∧
    GetSecret loginWorld RangeOrder.reversed (lit "us-east-1") (lit "json-secret") (lit "json")
      hostPasswordFields = ⟨lit "localhost", none, [lit "json-secret"]⟩ ∧
    lit "localhost" ≠ strVal loginWorld (.string (lit "secret-password")) :=
  ⟨RangeOrder.reversed_valid, rfl, rfl, rfl, by decide, by decide⟩

/-- C5: in JSON mode with a field map of which at least one source key is absent
from the payload object, GetSecret returns no credential and a NotFound error
whose argument is a source key of the field map that is absent from the object,
for every range order, even when other requested keys are present. -/
theorem GetSecret_missing_key (w : World) (ρ : RangeOrder) (hρ : ρ.Valid)
    (region secretID t : GoString) (b : Option (List UInt8)) (fields : GoMap GoString)
    (obj : Entries JsonValue)
    (hr : region ≠ lit "") (hs : secretID ≠ lit "")
    (hc : w.LoadDefaultConfig (cfgOpts w region) = none)
    (hf : w.GetSecretValue (cfgOpts w region) secretID = .ok ⟨some t, b⟩)
    (hu : w.Unmarshal t = .ok (some obj))
    (hl : 0 < fields.len)
    (habs : ∃ e ∈ fields.entries, obj.get e.1 = none) :
    ∃ key aliasName, (key, aliasName) ∈ fields.entries ∧ obj.get key = none ∧
      GetSecret w ρ region secretID (lit "json") fields =
        ⟨[], some (.notFound (lit "key %q not found in secret JSON") [key]), [secretID]⟩ ∧
      (Error.notFound (lit "key %q not found in secret JSON") [key]).IsNotFound = true := by
  have hperm := hρ.1 fields.entries
  obtain ⟨key, al, hmem, hnone, heq⟩ := extractLoop_missing w (some obj)
    (ρ.fields fields.entries) []
    (by
      obtain ⟨e, he, hn⟩ := habs
      exact ⟨e, hperm.mem_iff.mpr he, hn⟩)
  refine ⟨key, al, hperm.mem_iff.mp hmem, hnone, ?_, rfl⟩
  rw [GetSecret_fetched w ρ region secretID _ _ _ hr hs hc hf,
    resolve_json w ρ b t fields (some obj) hu, if_pos hl, heq]

theorem GetSecret_missing_key_witness :
    ∃ key aliasName, (key, aliasName) ∈ GoMap.entries (some [(lit "password", lit ""),
        (lit "port", lit "")]) ∧ loginObject.get key = none ∧
      GetSecret loginWorld RangeOrder.listed (lit "us-east-1") (lit "json-secret") (lit "json")
        (some [(lit "password", lit ""), (lit "port", lit "")]) =
        ⟨[], some (.notFound (lit "key %q not found in secret JSON") [key]),
          [lit "json-secret"]⟩ ∧
      (Error.notFound (lit "key %q not found in secret JSON") [key]).IsNotFound = true :=
  GetSecret_missing_key loginWorld RangeOrder.listed RangeOrder.listed_valid
    (lit "us-east-1") (lit "json-secret") loginText none
    (some [(lit "password", lit ""), (lit "port", lit "")]) loginObject
    (by decide) (by decide) rfl rfl rfl (by decide)
    ⟨(lit "port", lit ""), by simp [GoMap.entries], rfl⟩

/-- C6, as the code behaves: in JSON mode, when the field map has at least one
entry whose output key is password, the payload object holds every requested
key, and the payload values at the entries whose output key is password all
have the same string form s (as when there is exactly one such entry),
GetSecret returns s for every range order. -/
theorem GetSecret_password_output_key (w : World) (ρ : RangeOrder) (hρ : ρ.Valid)
    (region secretID t s : GoString) (b : Option (List UInt8)) (fields : GoMap GoString)
    (obj : Entries JsonValue)
    (hr : region ≠ lit "") (hs : secretID ≠ lit "")
    (hc : w.LoadDefaultConfig (cfgOpts w region) = none)
    (hf : w.GetSecretValue (cfgOpts w region) secretID = .ok ⟨some t, b⟩)
    (hu : w.Unmarshal t = .ok (some obj))
    (hpw : ∃ e ∈ fields.entries, outKey e.1 e.2 = lit "password")
    (hall : ∀ e ∈ fields.entries, ∃ v, obj.get e.1 = some v ∧
      (outKey e.1 e.2 = lit "password" → strVal w v = s)) :
    GetSecret w ρ region secretID (lit "json") fields = ⟨s, none, [secretID]⟩ := by
  have hl : 0 < fields.len := by
    obtain ⟨e, he, _⟩ := hpw
    exact List.length_pos_of_mem he
  rw [GetSecret_fetched w ρ region secretID _ _ _ hr hs hc hf,
    resolve_json_fields_password w ρ hρ b t fields (some obj) s hu hl hall hpw]

theorem GetSecret_password_output_key_witness :
    GetSecret loginWorld RangeOrder.fieldsReversed (lit "us-east-1") (lit "json-secret")
      (lit "json") (some [(lit "host", lit "h"), (lit "password", lit "password")])
      = ⟨lit "secret-password", none, [lit "json-secret"]⟩ :=
  GetSecret_password_output_key loginWorld RangeOrder.fieldsReversed
    RangeOrder.fieldsReversed_valid (lit "us-east-1") (lit "json-secret") loginText
    (lit "secret-password") none (some [(lit "host", lit "h"), (lit "password", lit "password")])
    loginObject (by decide) (by decide) rfl rfl rfl
    ⟨(lit "password", lit "password"), by simp [GoMap.entries], by decide⟩
    (by
      intro e he
      simp only [GoMap.entries, Option.getD_some, List.mem_cons, List.mem_singleton,
        List.not_mem_nil, or_false] at he
      rcases he with rfl | rfl
      · exact ⟨.string (lit "localhost"), rfl, fun h => absurd h (by decide)⟩
      · exact ⟨.string (lit "secret-password"), rfl, fun _ => rfl⟩)

/-- C6 fails as stated: a field map with two entries whose output key is
password, on a payload object holding both source keys, makes GetSecret return
the value of one entry or the other according to the order in which the field
map is visited. -/
theorem GetSecret_password_output_key_order_dependent :
    RangeOrder.listed.Valid ∧ RangeOrder.fieldsReversed.Valid ∧
    twoKeyWorld.Unmarshal twoKeyText = .ok (some twoKeyObject) ∧
    outKey (lit "a") (lit "password") = lit "password" ∧
    outKey (lit "password") (lit "") = lit "password" ∧
    twoKeyObject.get (lit "a") = some (.string (lit "1")) ∧
    twoKeyObject.get (lit "password") = some (.string (lit "2")) ∧
    GetSecret twoKeyWorld RangeOrder.listed (lit "us-east-1") (lit "two") (lit "json")
      twoPasswordFields = ⟨lit "2", none, [lit "two"]⟩ ∧
    GetSecret twoKeyWorld RangeOrder.fieldsReversed (lit "us-east-1") (lit "two") (lit "json")
      twoPasswordFields = ⟨lit "1", none, [lit "two"]⟩ :=
  ⟨RangeOrder.listed_valid, RangeOrder.fieldsReversed_valid, rfl, by decide, by decide, rfl, rfl,
    by decide, by decide⟩

/-! ## JSON mode: decoding failures and the password fallback -/

/-- C7, as the code behaves: in JSON mode, when the decoder rejects the fetched
text blob (malformed text, or a JSON array, string, number or boolean),
GetSecret returns no credential and the decoder error wrapped with the message
that the secret failed to parse as JSON; that error is not BadParameter. -/
theorem GetSecret_json_decode_error (w : World) (ρ : RangeOrder)
    (region secretID t : GoString) (b : Option (List UInt8)) (fields : GoMap GoString)
    (e : ExtErr)
    (hr : region ≠ lit "") (hs : secretID ≠ lit "")
    (hc : w.LoadDefaultConfig (cfgOpts w region) = none)
    (hf : w.GetSecretValue (cfgOpts w region) secretID = .ok ⟨some t, b⟩)
    (hu : w.Unmarshal t = .error e) :
    GetSecret w ρ region secretID (lit "json") fields =
        ⟨[], some (.wrap e (lit "failed to parse secret as JSON")), [secretID]⟩ ∧
      (Error.wrap e (lit "failed to parse secret as JSON")).IsBadParameter = false := by
  refine ⟨?_, rfl⟩
  rw [GetSecret_fetched w ρ region secretID _ _ _ hr hs hc hf]
  simp only [resolve, json_ne_string, if_false, if_true, hu]

theorem GetSecret_json_decode_error_witness :
    GetSecret malformedWorld RangeOrder.listed (lit "us-east-1") (lit "bad") (lit "json") none =
        ⟨[], some (.wrap (.jsonSyntax (lit "unexpected end of JSON input"))
          (lit "failed to parse secret as JSON")), [lit "bad"]⟩ ∧
      (Error.wrap (.jsonSyntax (lit "unexpected end of JSON input"))
        (lit "failed to parse secret as JSON")).IsBadParameter = false :=
  GetSecret_json_decode_error malformedWorld RangeOrder.listed (lit "us-east-1") (lit "bad")
    malformedText none none (.jsonSyntax (lit "unexpected end of JSON input"))
    (by decide) (by decide) rfl rfl rfl

/-- C7 fails as stated: on a malformed payload in JSON mode the error GetSecret
returns is the wrapped decoder error, which is not BadParameter. -/
theorem GetSecret_json_decode_error_not_bad_parameter :
    malformedWorld.Unmarshal malformedText
      = .error (.jsonSyntax (lit "unexpected end of JSON input")) ∧
    (GetSecret malformedWorld RangeOrder.listed (lit "us-east-1") (lit "bad") (lit "json")
      none).err = some (.wrap (.jsonSyntax (lit "unexpected end of JSON input"))
        (lit "failed to parse secret as JSON")) ∧
    ¬ ∃ e, (GetSecret malformedWorld RangeOrder.listed (lit "us-east-1") (lit "bad") (lit "json")
      none).err = some e ∧ e.IsBadParameter = true := by
  refine ⟨rfl, by decide, ?_⟩
  rintro ⟨e, he, hb⟩
  have h : (GetSecret malformedWorld RangeOrder.listed (lit "us-east-1") (lit "bad") (lit "json")
      none).err = some (.wrap (.jsonSyntax (lit "unexpected end of JSON input"))
        (lit "failed to parse secret as JSON")) := by decide
  rw [h] at he
  cases he
  exact absurd hb (by decide)

/-- C4: in JSON mode with a nil or empty field map, for every payload that
decodes to an object whose key password holds a JSON string s, GetSecret returns
s and no error, whatever other keys the object has. -/
theorem GetSecret_json_password_fallback (w : World) (ρ : RangeOrder)
    (region secretID t s : GoString) (b : Option (List UInt8)) (fields : GoMap GoString)
    (obj : Entries JsonValue)
    (hr : region ≠ lit "") (hs : secretID ≠ lit "")
    (hc : w.LoadDefaultConfig (cfgOpts w region) = none)
    (hf : w.GetSecretValue (cfgOpts w region) secretID = .ok ⟨some t, b⟩)
    (hu : w.Unmarshal t = .ok (some obj))
    (hl : fields = none ∨ fields = some [])
    (hp : obj.get (lit "password") = some (.string s)) :
    GetSecret w ρ region secretID (lit "json") fields = ⟨s, none, [secretID]⟩ := by
  rw [GetSecret_fetched w ρ region secretID _ _ _ hr hs hc hf,
    resolve_json_no_fields w ρ b t fields (some obj) hu hl]
  simp [passwordFallback, GoMap.get, GoMap.entries, hp]

theorem GetSecret_json_password_fallback_witness :
    GetSecret loginWorld RangeOrder.listed (lit "us-east-1") (lit "json-secret") (lit "json") none
      = ⟨lit "secret-password", none, [lit "json-secret"]⟩ :=
  GetSecret_json_password_fallback loginWorld RangeOrder.listed (lit "us-east-1")
    (lit "json-secret") loginText (lit "secret-password") none none loginObject
    (by decide) (by decide) rfl rfl rfl (Or.inl rfl) rfl

/-- C8: in JSON mode with a nil or empty field map, for every payload that
decodes to an object holding neither the key password nor the key Password,
GetSecret returns no credential and a BadParameter error; a key that differs
from these only in case does not count. -/
theorem GetSecret_json_no_password (w : World) (ρ : RangeOrder)
    (region secretID t : GoString) (b : Option (List UInt8)) (fields : GoMap GoString)
    (obj : Entries JsonValue)
    (hr : region ≠ lit "") (hs : secretID ≠ lit "")
    (hc : w.LoadDefaultConfig (cfgOpts w region) = none)
    (hf : w.GetSecretValue (cfgOpts w region) secretID = .ok ⟨some t, b⟩)
    (hu : w.Unmarshal t = .ok (some obj))
    (hl : fields = none ∨ fields = some [])
    (hp : obj.get (lit "password") = none) (hP : obj.get (lit "Password") = none) :
    GetSecret w ρ region secretID (lit "json") fields =
        ⟨[], some (.badParameter
          (lit "no password field found in secret JSON and no fields specified") []),
          [secretID]⟩ ∧
      (Error.badParameter
        (lit "no password field found in secret JSON and no fields specified")
        []).IsBadParameter = true := by
  refine ⟨?_, rfl⟩
  rw [GetSecret_fetched w ρ region secretID _ _ _ hr hs hc hf,
    resolve_json_no_fields w ρ b t fields (some obj) hu hl]
  simp [passwordFallback, GoMap.get, GoMap.entries, hp, hP]

theorem GetSecret_json_no_password_witness :
    GetSecret upperWorld RangeOrder.listed (lit "us-east-1") (lit "upper") (lit "json")
        (some []) =
        ⟨[], some (.badParameter
          (lit "no password field found in secret JSON and no fields specified") []),
          [lit "upper"]⟩ ∧
      (Error.badParameter
        (lit "no password field found in secret JSON and no fields specified")
        []).IsBadParameter = true :=
  GetSecret_json_no_password upperWorld RangeOrder.listed (lit "us-east-1") (lit "upper")
    upperText none (some []) [(lit "PASSWORD", .string (lit "x"))]
    (by decide) (by decide) rfl rfl rfl (Or.inr rfl) rfl rfl

/-! ## Validation of the arguments and the store read -/

theorem Sprintf_region (q : GoString → GoString) :
    Sprintf q (lit "region is required") [] = lit "region is required" := rfl

theorem Sprintf_secret_id (q : GoString → GoString) :
    Sprintf q (lit "secret_id is required") [] = lit "secret_id is required" := rfl

/-- C13: with an empty region, and with a non-empty region and an empty secret
id, GetSecret returns no credential and a BadParameter error whose message
mentions region, respectively secret_id, for every mode and field map, and it
makes no store read. -/
theorem GetSecret_requires_region_and_secret_id (w : World) (ρ : RangeOrder)
    (q : GoString → GoString) (region secretID mode : GoString) (fields : GoMap GoString) :
    (region = lit "" → GetSecret w ρ region secretID mode fields =
      ⟨[], some (.badParameter (lit "region is required") []), []⟩) ∧
    (region ≠ lit "" → secretID = lit "" → GetSecret w ρ region secretID mode fields =
      ⟨[], some (.badParameter (lit "secret_id is required") []), []⟩) ∧
    (Error.badParameter (lit "region is required") []).IsBadParameter = true ∧
    (Error.badParameter (lit "secret_id is required") []).IsBadParameter = true ∧
    lit "region" <:+: Sprintf q (lit "region is required") [] ∧
    lit "secret_id" <:+: Sprintf q (lit "secret_id is required") [] := by
  refine ⟨fun h => ?_, fun h1 h2 => ?_, rfl, rfl, ?_, ?_⟩
  · simp [GetSecret, h]
  · simp [GetSecret, h1, h2]
  · rw [Sprintf_region]
    decide
  · rw [Sprintf_secret_id]
    decide

theorem GetSecret_requires_region_and_secret_id_witness :
    GetSecret loginWorld RangeOrder.listed (lit "") (lit "json-secret") (lit "json")
      hostPasswordFields = ⟨[], some (.badParameter (lit "region is required") []), []⟩ ∧
    GetSecret loginWorld RangeOrder.listed (lit "us-east-1") (lit "") (lit "yaml") none =
      ⟨[], some (.badParameter (lit "secret_id is required") []), []⟩ :=
  ⟨(GetSecret_requires_region_and_secret_id loginWorld RangeOrder.listed id (lit "")
      (lit "json-secret") (lit "json") hostPasswordFields).1 rfl,
   (GetSecret_requires_region_and_secret_id loginWorld RangeOrder.listed id (lit "us-east-1")
      (lit "") (lit "yaml") none).2.1 (by decide) rfl⟩

/-! ## The requests of one call -/

theorem strVal_congr (w w' : World) (h : w.SprintV = w'.SprintV) (v : JsonValue) :
    strVal w v = strVal w' v := by
  cases v <;> simp [strVal, h]

theorem extractLoop_congr (w w' : World) (h : w.SprintV = w'.SprintV)
    (secretMap : GoMap JsonValue) (l : List (GoString × GoString))
    (extracted : Entries GoString) :
    extractLoop w secretMap l extracted = extractLoop w' secretMap l extracted := by
  induction l generalizing extracted with
  | nil => rfl
  | cons e rest ih =>
    obtain ⟨key, al⟩ := e
    simp only [extractLoop, strVal_congr w w' h, ih]

theorem resolve_congr (w w' : World) (hU : w.Unmarshal = w'.Unmarshal)
    (hS : w.SprintV = w'.SprintV) (ρ : RangeOrder) (result : GetSecretValueOutput)
    (mode : GoString) (fields : GoMap GoString) :
    resolve w ρ result mode fields = resolve w' ρ result mode fields := by
  simp only [resolve, hU, extractLoop_congr w w' hS]

/-- The results of `GetSecretOnStore` are those of `GetSecret` in the world whose
client method is a call on the store. -/
theorem GetSecretOnStore_results (w : World) (store : Store) (ρ : RangeOrder)
    (region secretID mode : GoString) (fields : GoMap GoString) :
    (GetSecretOnStore w store ρ region secretID mode fields).1 =
      ((GetSecret (store.world w) ρ region secretID mode fields).val,
        (GetSecret (store.world w) ρ region secretID mode fields).err) := by
  have hres := resolve_congr (store.world w) w rfl rfl ρ
  unfold GetSecretOnStore GetSecret
  by_cases hr : region = lit ""
  · simp [hr]
  · by_cases hs : secretID = lit ""
    · simp [hr, hs]
    · have hcfg : cfgOpts (store.world w) region = cfgOpts w region := rfl
      have hload : (store.world w).LoadDefaultConfig = w.LoadDefaultConfig := rfl
      have hget : (store.world w).GetSecretValue (cfgOpts w region) secretID =
          (clientGetSecretValue store secretID).1 := rfl
      simp only [hr, hs, if_false, hcfg, hload, hget]
      cases hc : w.LoadDefaultConfig (cfgOpts w region) with
      | some err => rfl
      | none =>
        simp only
        rcases hcl : clientGetSecretValue store secretID with ⟨res, store'⟩
        cases res with
        | error err => rfl
        | ok result => simp only [hres]

/-- C14: in JSON mode, when the store returns no text blob, GetSecret returns no
credential and a BadParameter error, also when a binary blob is present and
holds a JSON object with a password; the decoder result plays no part. -/
theorem GetSecret_json_mode_binary_only (w : World) (ρ : RangeOrder)
    (region secretID : GoString) (fields : GoMap GoString) (b : Option (List UInt8))
    (hr : region ≠ lit "") (hs : secretID ≠ lit "")
    (hc : w.LoadDefaultConfig (cfgOpts w region) = none)
    (hf : w.GetSecretValue (cfgOpts w region) secretID = .ok ⟨none, b⟩) :
    GetSecret w ρ region secretID (lit "json") fields =
        ⟨[], some (.badParameter
          (lit "secret value is not a string (required for JSON mode)") []), [secretID]⟩ ∧
      (Error.badParameter
        (lit "secret value is not a string (required for JSON mode)") []).IsBadParameter
        = true := by
  refine ⟨?_, rfl⟩
  rw [GetSecret_fetched w ρ region secretID _ _ _ hr hs hc hf]
  simp only [resolve, json_ne_string, if_false, if_true]

theorem GetSecret_json_mode_binary_only_witness :
    GetSecret binaryLoginWorld RangeOrder.listed (lit "us-east-1") (lit "bin") (lit "json") none =
        ⟨[], some (.badParameter
          (lit "secret value is not a string (required for JSON mode)") []), [lit "bin"]⟩ ∧
      (Error.badParameter
        (lit "secret value is not a string (required for JSON mode)") []).IsBadParameter
        = true :=
  GetSecret_json_mode_binary_only binaryLoginWorld RangeOrder.listed (lit "us-east-1")
    (lit "bin") none (some loginText) (by decide) (by decide) rfl rfl

/-! ## JSON mode: which value is returned -/

/-- C17: in JSON mode, when the payload object holds every requested source key
and exactly one entry of the field map has the output key password, GetSecret
returns the string form of the payload value at the source key of that entry,
for every range order. -/
theorem GetSecret_single_password_output (w : World) (ρ : RangeOrder) (hρ : ρ.Valid)
    (region secretID t key aliasName : GoString) (b : Option (List UInt8))
    (fields : GoMap GoString) (obj : Entries JsonValue) (v : JsonValue)
    (hr : region ≠ lit "") (hs : secretID ≠ lit "")
    (hc : w.LoadDefaultConfig (cfgOpts w region) = none)
    (hf : w.GetSecretValue (cfgOpts w region) secretID = .ok ⟨some t, b⟩)
    (hu : w.Unmarshal t = .ok (some obj))
    (hmem : (key, aliasName) ∈ fields.entries)
    (hout : outKey key aliasName = lit "password")
    (huniq : ∀ e ∈ fields.entries, outKey e.1 e.2 = lit "password" → e = (key, aliasName))
    (hall : ∀ e ∈ fields.entries, ∃ x, obj.get e.1 = some x)
    (hv : obj.get key = some v) :
    GetSecret w ρ region secretID (lit "json") fields = ⟨strVal w v, none, [secretID]⟩ := by
  rw [GetSecret_fetched w ρ region secretID _ _ _ hr hs hc hf,
    resolve_json_fields_password w ρ hρ b t fields (some obj) (strVal w v) hu
      (List.length_pos_of_mem hmem)
      (by
        intro e he
        obtain ⟨x, hx⟩ := hall e he
        refine ⟨x, by simpa [GoMap.get, GoMap.entries] using hx, fun ho => ?_⟩
        have := huniq e he ho
        subst this
        rw [hv] at hx
        cases hx
        rfl)
      ⟨(key, aliasName), hmem, hout⟩]

theorem GetSecret_single_password_output_witness :
    GetSecret pwWorld RangeOrder.reversed (lit "us-east-1") (lit "s") (lit "json")
      (some [(lit "password", lit "p"), (lit "pw", lit "password")])
      = ⟨strVal pwWorld (.string (lit "right")), none, [lit "s"]⟩ :=
  GetSecret_single_password_output pwWorld RangeOrder.reversed RangeOrder.reversed_valid
    (lit "us-east-1") (lit "s") (lit "pw") (lit "pw") (lit "password") none
    (some [(lit "password", lit "p"), (lit "pw", lit "password")]) pwObject
    (.string (lit "right")) (by decide) (by decide) rfl rfl rfl
    (by simp [GoMap.entries]) (by decide)
    (by
      intro e he
      simp only [GoMap.entries, Option.getD_some, List.mem_cons, List.mem_singleton,
        List.not_mem_nil, or_false] at he
      rcases he with rfl | rfl
      · intro h
        exact absurd h (by decide)
      · intro _
        rfl)
    (by
      intro e he
      simp only [GoMap.entries, Option.getD_some, List.mem_cons, List.mem_singleton,
        List.not_mem_nil, or_false] at he
      rcases he with rfl | rfl
      · exact ⟨_, rfl⟩
      · exact ⟨_, rfl⟩)
    rfl

/-- C20: in JSON mode with a non-empty field map and a payload object holding
every requested source key, GetSecret succeeds for every range order, and the
credential is the string form of the payload value at a source key of the field
map; it does not reach the password fallback or its error. -/
theorem GetSecret_fields_value (w : World) (ρ : RangeOrder) (hρ : ρ.Valid)
    (region secretID t : GoString) (b : Option (List UInt8))
    (fields : GoMap GoString) (obj : Entries JsonValue)
    (hr : region ≠ lit "") (hs : secretID ≠ lit "")
    (hc : w.LoadDefaultConfig (cfgOpts w region) = none)
    (hf : w.GetSecretValue (cfgOpts w region) secretID = .ok ⟨some t, b⟩)
    (hu : w.Unmarshal t = .ok (some obj))
    (hl : 0 < fields.len)
    (hall : ∀ e ∈ fields.entries, ∃ x, obj.get e.1 = some x) :
    ∃ e ∈ fields.entries, ∃ v, obj.get e.1 = some v ∧
      GetSecret w ρ region secretID (lit "json") fields = ⟨strVal w v, none, [secretID]⟩ := by
  obtain ⟨e, he, v, hv, hres⟩ := resolve_json_fields_mem w ρ hρ b t fields (some obj) hu hl
    (by
      intro e he
      obtain ⟨x, hx⟩ := hall e he
      simp [GoMap.get, GoMap.entries, hx])
  refine ⟨e, he, v, by simpa [GoMap.get, GoMap.entries] using hv, ?_⟩
  rw [GetSecret_fetched w ρ region secretID _ _ _ hr hs hc hf, hres]

theorem GetSecret_fields_value_witness :
    ∃ e ∈ GoMap.entries (some [(lit "username", lit "user"), (lit "host", lit "")]),
      ∃ v, loginObject.get e.1 = some v ∧
      GetSecret loginWorld RangeOrder.reversed (lit "us-east-1") (lit "json-secret") (lit "json")
        (some [(lit "username", lit "user"), (lit "host", lit "")])
        = ⟨strVal loginWorld v, none, [lit "json-secret"]⟩ :=
  GetSecret_fields_value loginWorld RangeOrder.reversed RangeOrder.reversed_valid
    (lit "us-east-1") (lit "json-secret") loginText none
    (some [(lit "username", lit "user"), (lit "host", lit "")]) loginObject
    (by decide) (by decide) rfl rfl rfl (by decide)
    (by
      intro e he
      simp only [GoMap.entries, Option.getD_some, List.mem_cons, List.mem_singleton,
        List.not_mem_nil, or_false] at he
      rcases he with rfl | rfl
      · exact ⟨_, rfl⟩
      · exact ⟨_, rfl⟩)

/-- C19: in JSON mode, when the text blob does not decode to an object (the
decoder reports an error, or the text is the JSON literal null and the map stays
nil), GetSecret returns an error and no credential, for every field map and
range order. -/
theorem GetSecret_json_not_object (w : World) (ρ : RangeOrder) (hρ : ρ.Valid)
    (region secretID t : GoString) (b : Option (List UInt8)) (fields : GoMap GoString)
    (hr : region ≠ lit "") (hs : secretID ≠ lit "")
    (hc : w.LoadDefaultConfig (cfgOpts w region) = none)
    (hf : w.GetSecretValue (cfgOpts w region) secretID = .ok ⟨some t, b⟩)
    (hu : (∃ e, w.Unmarshal t = .error e) ∨ w.Unmarshal t = .ok none) :
    ∃ e, GetSecret w ρ region secretID (lit "json") fields = ⟨[], some e, [secretID]⟩ := by
  rw [GetSecret_fetched w ρ region secretID _ _ _ hr hs hc hf]
  rcases hu with ⟨e, he⟩ | hnull
  · exact ⟨.wrap e (lit "failed to parse secret as JSON"),
      by simp only [resolve, json_ne_string, if_false, if_true, he]⟩
  · rw [resolve_json w ρ b t fields none hnull]
    by_cases hl : 0 < fields.len
    · have hperm := hρ.1 fields.entries
      obtain ⟨x, hx⟩ := List.exists_mem_of_length_pos hl
      obtain ⟨key, al, _, _, heq⟩ := extractLoop_missing w none (ρ.fields fields.entries) []
        ⟨x, hperm.mem_iff.mpr hx, rfl⟩
      exact ⟨_, by rw [if_pos hl, heq]⟩
    · exact ⟨_, by rw [if_neg hl]; rfl⟩

theorem GetSecret_json_not_object_witness :
    ∃ e, GetSecret nullWorld RangeOrder.listed (lit "us-east-1") (lit "n") (lit "json") none
      = ⟨[], some e, [lit "n"]⟩ :=
  GetSecret_json_not_object nullWorld RangeOrder.listed RangeOrder.listed_valid
    (lit "us-east-1") (lit "n") (lit "null") none none (by decide) (by decide) rfl rfl
    (Or.inr rfl)

/-! ## JSON mode: the cases of the password fallback -/

theorem passwordFallback_password (secretMap : GoMap JsonValue) (s : GoString)
    (h : secretMap.get (lit "password") = some (.string s)) :
    passwordFallback secretMap = (s, none) := by
  simp [passwordFallback, h]

theorem passwordFallback_Password (secretMap : GoMap JsonValue) (s : GoString)
    (h1 : ∀ x, secretMap.get (lit "password") ≠ some (.string x))
    (h2 : secretMap.get (lit "Password") = some (.string s)) :
    passwordFallback secretMap = (s, none) := by
  unfold passwordFallback
  split
  · next str hstr => exact absurd hstr (h1 str)
  · simp [h2]

theorem passwordFallback_none (secretMap : GoMap JsonValue)
    (h1 : ∀ x, secretMap.get (lit "password") ≠ some (.string x))
    (h2 : ∀ x, secretMap.get (lit "Password") ≠ some (.string x)) :
    passwordFallback secretMap = ([], some (.badParameter
      (lit "no password field found in secret JSON and no fields specified") [])) := by
  unfold passwordFallback
  split
  · next str hstr => exact absurd hstr (h1 str)
  · split
    · next str hstr => exact absurd hstr (h2 str)
    · rfl

/-- C18: in JSON mode with a nil or empty field map and a payload that decodes to
an object, GetSecret returns the string at the key password when that value is a
string; otherwise the string at the key Password when that value is a string,
also when the key password is present with a value of another type; otherwise
no credential and a BadParameter error.  So it succeeds exactly when one of
the two keys holds a string. -/
theorem GetSecret_json_fallback_cases (w : World) (ρ : RangeOrder)
    (region secretID t : GoString) (b : Option (List UInt8)) (fields : GoMap GoString)
    (obj : Entries JsonValue)
    (hr : region ≠ lit "") (hs : secretID ≠ lit "")
    (hc : w.LoadDefaultConfig (cfgOpts w region) = none)
    (hf : w.GetSecretValue (cfgOpts w region) secretID = .ok ⟨some t, b⟩)
    (hu : w.Unmarshal t = .ok (some obj))
    (hl : fields = none ∨ fields = some []) :
    (∀ s, obj.get (lit "password") = some (.string s) →
      GetSecret w ρ region secretID (lit "json") fields = ⟨s, none, [secretID]⟩) ∧
    (∀ s, (∀ x, obj.get (lit "password") ≠ some (.string x)) →
      obj.get (lit "Password") = some (.string s) →
      GetSecret w ρ region secretID (lit "json") fields = ⟨s, none, [secretID]⟩) ∧
    ((∀ x, obj.get (lit "password") ≠ some (.string x)) →
      (∀ x, obj.get (lit "Password") ≠ some (.string x)) →
      GetSecret w ρ region secretID (lit "json") fields =
        ⟨[], some (.badParameter
          (lit "no password field found in secret JSON and no fields specified") []),
          [secretID]⟩) ∧
    ((GetSecret w ρ region secretID (lit "json") fields).err = none ↔
      (∃ s, obj.get (lit "password") = some (.string s)) ∨
        (∃ s, obj.get (lit "Password") = some (.string s))) := by
  have hG : GetSecret w ρ region secretID (lit "json") fields =
      ⟨(passwordFallback (some obj)).1, (passwordFallback (some obj)).2, [secretID]⟩ := by
    rw [GetSecret_fetched w ρ region secretID _ _ _ hr hs hc hf,
      resolve_json_no_fields w ρ b t fields (some obj) hu hl]
  have c1 : ∀ s, obj.get (lit "password") = some (.string s) →
      GetSecret w ρ region secretID (lit "json") fields = ⟨s, none, [secretID]⟩ := by
    intro s h
    rw [hG, passwordFallback_password (some obj) s h]
  have c2 : ∀ s, (∀ x, obj.get (lit "password") ≠ some (.string x)) →
      obj.get (lit "Password") = some (.string s) →
      GetSecret w ρ region secretID (lit "json") fields = ⟨s, none, [secretID]⟩ := by
    intro s h1 h2
    rw [hG, passwordFallback_Password (some obj) s h1 h2]
  have c3 : (∀ x, obj.get (lit "password") ≠ some (.string x)) →
      (∀ x, obj.get (lit "Password") ≠ some (.string x)) →
      GetSecret w ρ region secretID (lit "json") fields =
        ⟨[], some (.badParameter
          (lit "no password field found in secret JSON and no fields specified") []),
          [secretID]⟩ := by
    intro h1 h2
    rw [hG, passwordFallback_none (some obj) h1 h2]
  refine ⟨c1, c2, c3, ?_⟩
  by_cases p1 : ∃ s, obj.get (lit "password") = some (.string s)
  · obtain ⟨s, h⟩ := p1
    simp only [c1 s h, true_iff]
    exact Or.inl ⟨s, h⟩
  · have h1 : ∀ x, obj.get (lit "password") ≠ some (.string x) := fun x hx => p1 ⟨x, hx⟩
    by_cases p2 : ∃ s, obj.get (lit "Password") = some (.string s)
    · obtain ⟨s, h⟩ := p2
      simp only [c2 s h1 h, true_iff]
      exact Or.inr ⟨s, h⟩
    · have h2 : ∀ x, obj.get (lit "Password") ≠ some (.string x) := fun x hx => p2 ⟨x, hx⟩
      rw [c3 h1 h2]
      simp [p1, p2]

theorem GetSecret_json_fallback_cases_witness :
    GetSecret mixedWorld RangeOrder.listed (lit "us-east-1") (lit "m") (lit "json") (some []) =
      ⟨lit "s3cret", none, [lit "m"]⟩ :=
  (GetSecret_json_fallback_cases mixedWorld RangeOrder.listed (lit "us-east-1") (lit "m")
    (lit "mixed") none (some []) mixedObject (by decide) (by decide) rfl rfl rfl
    (Or.inr rfl)).2.1 (lit "s3cret")
    (by
      intro x hx
      have h : mixedObject.get (lit "password") = some (.number ⟨false, 7, 0⟩) := rfl
      rw [h] at hx
      cases hx)
    rfl

/-! ## The invalid mode and its message -/

theorem Sprintf_invalid_mode (q : GoString → GoString) (mode : GoString) :
    Sprintf q (lit "invalid mode: %q (must be 'string' or 'json')") [mode] =
      lit "invalid mode: " ++ Quote q mode ++ lit " (must be 'string' or 'json')" := rfl

theorem quoteByte_plain (b : UInt8)
    (h : 32 ≤ b.toNat ∧ b.toNat < 127 ∧ b ≠ 34 ∧ b ≠ 92) : quoteByte b = [b] := by
  simp [quoteByte, h.1, h.2.1, h.2.2.1, h.2.2.2]

theorem flatMap_quoteByte_plain (s : GoString) (h : Plain s) : s.flatMap quoteByte = s := by
  induction s with
  | nil => rfl
  | cons b rest ih =>
    rw [List.flatMap_cons, quoteByte_plain b (h b (List.mem_cons_self _ _)),
      ih (fun x hx => h x (List.mem_cons_of_mem _ hx))]
    rfl

theorem Quote_plain (q : GoString → GoString) (s : GoString) (h : Plain s) :
    Quote q s = [34] ++ s ++ [34] := by
  have hall : s.all (fun b => decide (b.toNat < 128)) = true := by
    rw [List.all_eq_true]
    intro b hb
    have := (h b hb).2.1
    simp only [decide_eq_true_eq]
    omega
  simp only [Quote, hall, if_true, flatMap_quoteByte_plain s h]

/-- C12, as the code behaves: for every mode other than the empty mode, string
and json (the comparison is exact, so JSON and String are invalid), when the
store read succeeds GetSecret returns no credential and a BadParameter error
whose message is the text invalid mode, the mode in the quoted form of the verb
q, and the list of valid modes; the message contains the mode itself when the
mode is made of printable ASCII bytes other than the double quote and the
backslash. -/
theorem GetSecret_invalid_mode (w : World) (ρ : RangeOrder) (q : GoString → GoString)
    (region secretID mode : GoString) (fields : GoMap GoString)
    (result : GetSecretValueOutput)
    (hr : region ≠ lit "") (hs : secretID ≠ lit "")
    (hc : w.LoadDefaultConfig (cfgOpts w region) = none)
    (hf : w.GetSecretValue (cfgOpts w region) secretID = .ok result)
    (h1 : mode ≠ lit "") (h2 : mode ≠ lit "string") (h3 : mode ≠ lit "json") :
    GetSecret w ρ region secretID mode fields =
      ⟨[], some (.badParameter (lit "invalid mode: %q (must be 'string' or 'json')") [mode]),
        [secretID]⟩ ∧
    (Error.badParameter (lit "invalid mode: %q (must be 'string' or 'json')")
      [mode]).IsBadParameter = true ∧
    Sprintf q (lit "invalid mode: %q (must be 'string' or 'json')") [mode] =
      lit "invalid mode: " ++ Quote q mode ++ lit " (must be 'string' or 'json')" ∧
    (Plain mode →
      mode <:+: Sprintf q (lit "invalid mode: %q (must be 'string' or 'json')") [mode]) := by
  refine ⟨?_, rfl, rfl, fun hp => ?_⟩
  · rw [GetSecret_fetched w ρ region secretID mode fields result hr hs hc hf]
    have hm : ¬ (mode = lit "string" ∨ mode = lit "") := by
      rintro (h | h)
      · exact h2 h
      · exact h1 h
    simp only [resolve, hm, h3, if_false]
  · rw [Sprintf_invalid_mode, Quote_plain q mode hp]
    exact ⟨lit "invalid mode: " ++ [34], [34] ++ lit " (must be 'string' or 'json')",
      by simp⟩

theorem GetSecret_invalid_mode_witness :
    GetSecret loginWorld RangeOrder.listed (lit "us-east-1") (lit "json-secret") (lit "JSON")
        hostPasswordFields =
      ⟨[], some (.badParameter (lit "invalid mode: %q (must be 'string' or 'json')")
        [lit "JSON"]), [lit "json-secret"]⟩ ∧
    (Error.badParameter (lit "invalid mode: %q (must be 'string' or 'json')")
      [lit "JSON"]).IsBadParameter = true ∧
    Sprintf id (lit "invalid mode: %q (must be 'string' or 'json')") [lit "JSON"] =
      lit "invalid mode: " ++ Quote id (lit "JSON") ++ lit " (must be 'string' or 'json')" ∧
    (Plain (lit "JSON") →
      lit "JSON" <:+: Sprintf id (lit "invalid mode: %q (must be 'string' or 'json')")
        [lit "JSON"]) :=
  GetSecret_invalid_mode loginWorld RangeOrder.listed id (lit "us-east-1") (lit "json-secret")
    (lit "JSON") hostPasswordFields ⟨some loginText, none⟩ (by decide) (by decide) rfl rfl
    (by decide) (by decide) (by decide)

/-- C12 fails as stated: the mode made of the word json between double quotes is
invalid, and the message of the error quotes it with backslashes, so the
message does not contain the mode value. -/
theorem GetSecret_invalid_mode_message_escapes :
    lit "\"json\"" ≠ lit "" ∧ lit "\"json\"" ≠ lit "string" ∧ lit "\"json\"" ≠ lit "json" ∧
    GetSecret loginWorld RangeOrder.listed (lit "us-east-1") (lit "json-secret")
        (lit "\"json\"") none =
      ⟨[], some (.badParameter (lit "invalid mode: %q (must be 'string' or 'json')")
        [lit "\"json\""]), [lit "json-secret"]⟩ ∧
    (∀ q : GoString → GoString,
      Sprintf q (lit "invalid mode: %q (must be 'string' or 'json')") [lit "\"json\""] =
        lit "invalid mode: \"\\\"json\\\"\" (must be 'string' or 'json')") ∧
    ¬ (lit "\"json\"" <:+:
      lit "invalid mode: \"\\\"json\\\"\" (must be 'string' or 'json')") :=
  ⟨by decide, by decide, by decide, by decide, fun _ => rfl, by decide⟩

/-! ## The rendering of numbers -/

theorem digitByte_range (d : Nat) (h : d < 10) :
    48 ≤ (UInt8.ofNat (Nat.digitChar d).toNat).toNat ∧
      (UInt8.ofNat (Nat.digitChar d).toNat).toNat ≤ 57 := by
  interval_cases d <;> decide

theorem toDigitsCore_digits (fuel n : Nat) (acc : List Char)
    (hacc : ∀ c ∈ acc, 48 ≤ (UInt8.ofNat c.toNat).toNat ∧ (UInt8.ofNat c.toNat).toNat ≤ 57) :
    ∀ c ∈ Nat.toDigitsCore 10 fuel n acc,
      48 ≤ (UInt8.ofNat c.toNat).toNat ∧ (UInt8.ofNat c.toNat).toNat ≤ 57 := by
  induction fuel generalizing n acc with
  | zero => simpa [Nat.toDigitsCore] using hacc
  | succ fuel ih =>
    have hd := digitByte_range (n % 10) (Nat.mod_lt _ (by decide))
    have hacc2 : ∀ c ∈ Nat.digitChar (n % 10) :: acc,
        48 ≤ (UInt8.ofNat c.toNat).toNat ∧ (UInt8.ofNat c.toNat).toNat ≤ 57 := by
      intro c hc
      rcases List.mem_cons.mp hc with rfl | hc
      · exact hd
      · exact hacc c hc
    simp only [Nat.toDigitsCore]
    split
    · exact hacc2
    · exact ih _ _ hacc2

theorem decimal_digits (n : Nat) : ∀ b ∈ decimal n, 48 ≤ b.toNat ∧ b.toNat ≤ 57 := by
  intro b hb
  simp only [decimal, Nat.toDigits, List.mem_map] at hb
  obtain ⟨c, hc, rfl⟩ := hb
  exact toDigitsCore_digits _ _ [] (by simp) c hc

theorem TrimSuffix_no_dot (s : GoString) (h : ∀ b ∈ s, b ≠ 46) :
    TrimSuffix s (lit ".0") = s := by
  unfold TrimSuffix
  split
  · next hsuf =>
    rw [List.isSuffixOf_iff_suffix] at hsuf
    obtain ⟨t, ht⟩ := hsuf
    exact absurd rfl (h 46 (by rw [← ht]; simp [lit]))
  · rfl

theorem roundHalfEven_integral (v : Float64) (n : Int) (hv : v.toRat = (n : ℚ)) :
    roundHalfEven v.mant v.exp = n.natAbs := by
  have habs : (v.mant : ℚ) * (2 : ℚ) ^ v.exp = (n.natAbs : ℚ) := by
    have h2 : (0 : ℚ) ≤ (v.mant : ℚ) * (2 : ℚ) ^ v.exp := by positivity
    rw [Nat.cast_natAbs, Int.cast_abs, ← hv, Float64.toRat]
    split
    · rw [mul_assoc, neg_one_mul, abs_neg, abs_of_nonneg h2]
    · rw [mul_assoc, one_mul, abs_of_nonneg h2]
  cases he : v.exp with
  | ofNat e =>
    rw [he] at habs
    simp only [roundHalfEven]
    have : ((v.mant * 2 ^ e : Nat) : ℚ) = (n.natAbs : ℚ) := by
      rw [← habs]
      push_cast
      simp
    exact_mod_cast this
  | negSucc k =>
    rw [he] at habs
    have hm : v.mant = n.natAbs * 2 ^ (k + 1) := by
      have : (v.mant : ℚ) = (n.natAbs : ℚ) * 2 ^ (k + 1) := by
        rw [← habs, zpow_negSucc]
        field_simp
      exact_mod_cast this
    have hpos : 0 < 2 ^ (k + 1) := by positivity
    simp only [roundHalfEven, hm, Nat.mul_mod_left, Nat.mul_div_cancel _ hpos]
    simp [hpos]

theorem neg_of_integral (v : Float64) (n : Int) (hv : v.toRat = (n : ℚ)) (hn : n ≠ 0) :
    v.neg = true ↔ n < 0 := by
  have h2 : (0 : ℚ) ≤ (v.mant : ℚ) * (2 : ℚ) ^ v.exp := by positivity
  unfold Float64.toRat at hv
  constructor
  · intro h
    rw [h, if_pos rfl, mul_assoc, neg_one_mul] at hv
    have : (n : ℚ) ≤ 0 := by rw [← hv]; linarith
    have : n ≤ 0 := by exact_mod_cast this
    omega
  · intro h
    by_contra hc
    simp only [Bool.not_eq_true] at hc
    rw [hc] at hv
    simp only [Bool.false_eq_true, if_false, one_mul] at hv
    have : (0 : ℚ) ≤ (n : ℚ) := by rw [← hv]; exact h2
    have : 0 ≤ n := by exact_mod_cast this
    omega

theorem toRat_of_nearest_int (v : Float64) (n : Int) (hn : n.natAbs < 2 ^ 53)
    (hd : v.Nearest (n : ℚ)) : v.toRat = (n : ℚ) := by
  have hu : (Float64.mk (decide (n < 0)) n.natAbs 0).InFormat :=
    ⟨hn, by norm_num, by norm_num⟩
  have hval : (Float64.mk (decide (n < 0)) n.natAbs 0).toRat = (n : ℚ) := by
    simp only [Float64.toRat, zpow_zero, mul_one, decide_eq_true_eq]
    rw [Nat.cast_natAbs, Int.cast_abs]
    by_cases h : n < 0
    · have h' : (n : ℚ) < 0 := by exact_mod_cast h
      rw [if_pos h, abs_of_neg h']
      ring
    · have h' : (0 : ℚ) ≤ (n : ℚ) := by exact_mod_cast (not_lt.mp h)
      rw [if_neg h, abs_of_nonneg h']
      ring
  have h := hd.2 _ hu
  rw [hval, sub_self, abs_zero] at h
  have h0 : v.toRat - (n : ℚ) = 0 := abs_eq_zero.mp (le_antisymm h (abs_nonneg _))
  linarith

theorem strVal_number_integral (w : World) (v : Float64) (n : Int)
    (hv : v.toRat = (n : ℚ)) :
    strVal w (.number v) = (if v.neg then lit "-" else []) ++ decimal n.natAbs := by
  have hdot : ∀ d ∈ sprintfF0 v, d ≠ 46 := by
    intro d hd
    simp only [sprintfF0, List.mem_append] at hd
    rcases hd with hd | hd
    · split at hd
      · simp only [lit] at hd
        intro h46
        subst h46
        revert hd
        decide
      · simp at hd
    · have := decimal_digits _ d hd
      intro h46
      subst h46
      revert this
      decide
  simp only [strVal]
  rw [TrimSuffix_no_dot _ hdot, TrimSuffix_no_dot _ hdot, sprintfF0,
    roundHalfEven_integral v n hv]

/-- C11, as the code behaves: in JSON mode, a requested key whose payload value
is a JSON number with an integral value n of magnitude below 2^53, which the
decoder stores as a nearest float64 v, is rendered as the decimal digits of the
magnitude of n, after a minus sign when the sign bit of v is set, with no
decimal point and no exponent.  This is the plain decimal numeral of n, except
that the negative zero is rendered as a minus sign and a zero.  A string value
is passed through unchanged.  With that key as the only entry of the field
map, GetSecret returns the rendering. -/
theorem GetSecret_number_field (w : World) (ρ : RangeOrder) (hρ : ρ.Valid)
    (region secretID t key aliasName : GoString) (b : Option (List UInt8))
    (obj : Entries JsonValue) (v : Float64) (n : Int)
    (hr : region ≠ lit "") (hs : secretID ≠ lit "")
    (hc : w.LoadDefaultConfig (cfgOpts w region) = none)
    (hf : w.GetSecretValue (cfgOpts w region) secretID = .ok ⟨some t, b⟩)
    (hu : w.Unmarshal t = .ok (some obj))
    (hk : obj.get key = some (.number v))
    (hn : n.natAbs < 2 ^ 53) (hd : v.Nearest (n : ℚ)) :
    GetSecret w ρ region secretID (lit "json") (some [(key, aliasName)]) =
      ⟨strVal w (.number v), none, [secretID]⟩ ∧
    strVal w (.number v) = (if v.neg then lit "-" else []) ++ decimal n.natAbs ∧
    (∀ d ∈ decimal n.natAbs, 48 ≤ d.toNat ∧ d.toNat ≤ 57) ∧
    ((n ≠ 0 ∨ v.neg = false) → strVal w (.number v) = intDecimal n) ∧
    (n = 0 → v.neg = true → strVal w (.number v) = lit "-0") ∧
    ∀ s, strVal w (.string s) = s := by
  have hv : v.toRat = (n : ℚ) := toRat_of_nearest_int v n hn hd
  have hstr := strVal_number_integral w v n hv
  refine ⟨?_, hstr, decimal_digits _, ?_, ?_, fun s => rfl⟩
  · obtain ⟨e, he, x, hx, hres⟩ := resolve_json_fields_mem w ρ hρ b t (some [(key, aliasName)])
      (some obj) hu (by simp [GoMap.len, GoMap.entries])
      (by
        intro e he
        simp only [GoMap.entries, Option.getD_some, List.mem_singleton] at he
        subst he
        simp [GoMap.get, GoMap.entries, hk])
    simp only [GoMap.entries, Option.getD_some, List.mem_singleton] at he
    subst he
    simp only [GoMap.get, GoMap.entries, Option.getD_some, hk, Option.some.injEq] at hx
    subst hx
    rw [GetSecret_fetched w ρ region secretID _ _ _ hr hs hc hf, hres]
  · intro h
    rw [hstr, intDecimal]
    by_cases hn0 : n = 0
    · subst hn0
      rcases h with h | h
      · exact absurd rfl h
      · simp [h]
    · by_cases hlt : n < 0
      · rw [(neg_of_integral v n hv hn0).mpr hlt]
        simp [hlt]
      · have hb : v.neg = false := by
          cases hvn : v.neg with
          | false => rfl
          | true => exact absurd ((neg_of_integral v n hv hn0).mp hvn) hlt
        simp [hb, hlt]
  · intro h0 hneg
    subst h0
    rw [hstr, hneg]
    decide

theorem port5432_nearest : port5432.Nearest ((5432 : Int) : ℚ) := by
  have hv : port5432.toRat = ((5432 : Int) : ℚ) := by norm_num [Float64.toRat, port5432]
  refine ⟨⟨by norm_num [port5432], by norm_num [port5432], by norm_num [port5432]⟩, ?_⟩
  intro u _
  rw [hv, sub_self, abs_zero]
  exact abs_nonneg _

theorem GetSecret_number_field_witness :
    GetSecret portWorld RangeOrder.listed (lit "us-east-1") (lit "db") (lit "json")
      (some [(lit "port", lit "")]) = ⟨lit "5432", none, [lit "db"]⟩ := by
  have h := GetSecret_number_field portWorld RangeOrder.listed RangeOrder.listed_valid
    (lit "us-east-1") (lit "db") portText (lit "port") (lit "") none
    [(lit "port", .number port5432)] port5432 5432 (by decide) (by decide) rfl rfl rfl rfl
    (by decide) port5432_nearest
  rw [h.1, h.2.2.2.1 (Or.inl (by decide))]
  decide

/-- C11 fails as stated: the JSON number minus zero has the integral value 0,
is decoded to the negative zero, and is rendered with a minus sign, not as the
plain decimal numeral of 0. -/
theorem GetSecret_number_field_minus_zero :
    (Float64.mk true 0 0).Nearest ((0 : Int) : ℚ) ∧
    (Float64.mk true 0 0).toRat = ((0 : Int) : ℚ) ∧
    minusZeroWorld.Unmarshal minusZeroText = .ok (some [(lit "port", .number ⟨true, 0, 0⟩)]) ∧
    GetSecret minusZeroWorld RangeOrder.listed (lit "us-east-1") (lit "db") (lit "json")
      (some [(lit "port", lit "")]) = ⟨lit "-0", none, [lit "db"]⟩ ∧
    intDecimal 0 = lit "0" ∧
    lit "-0" ≠ intDecimal 0 := by
  have hv : (Float64.mk true 0 0).toRat = ((0 : Int) : ℚ) := by norm_num [Float64.toRat]
  refine ⟨⟨⟨by norm_num, by norm_num, by norm_num⟩, ?_⟩, hv, rfl, by decide, by decide,
    by decide⟩
  intro u _
  rw [hv, sub_self, abs_zero]
  exact abs_nonneg _

/-! ## Validation of the auth configuration -/

/-- C15: validation of the auth configuration fails exactly when the type is
aws_sm and the region is empty, or the secret id is empty, or the mode is none
of the empty mode, string and json; when one rule alone is violated the error
mentions region, secret_id or mode respectively; any other type passes
whatever the AWS fields; and JSON mode passes with any field map, the empty
and the nil one included. -/
theorem checkAuth_rules (a : DatabaseAuth) :
    (checkAuth a ≠ none ↔
      a.AuthType = lit "aws_sm" ∧ (a.AWS.Region = lit "" ∨ a.AWS.SecretID = lit "" ∨
        ¬ (a.AWS.Mode = lit "" ∨ a.AWS.Mode = lit "string" ∨ a.AWS.Mode = lit "json"))) ∧
    (a.AuthType = lit "aws_sm" → a.AWS.Region = lit "" → a.AWS.SecretID ≠ lit "" →
      (a.AWS.Mode = lit "" ∨ a.AWS.Mode = lit "string" ∨ a.AWS.Mode = lit "json") →
      checkAuth a = some (lit "region")) ∧
    (a.AuthType = lit "aws_sm" → a.AWS.Region ≠ lit "" → a.AWS.SecretID = lit "" →
      (a.AWS.Mode = lit "" ∨ a.AWS.Mode = lit "string" ∨ a.AWS.Mode = lit "json") →
      checkAuth a = some (lit "secret_id")) ∧
    (a.AuthType = lit "aws_sm" → a.AWS.Region ≠ lit "" → a.AWS.SecretID ≠ lit "" →
      ¬ (a.AWS.Mode = lit "" ∨ a.AWS.Mode = lit "string" ∨ a.AWS.Mode = lit "json") →
      checkAuth a = some (lit "mode")) ∧
    (a.AuthType ≠ lit "aws_sm" → checkAuth a = none) ∧
    (a.AuthType = lit "aws_sm" → a.AWS.Region ≠ lit "" → a.AWS.SecretID ≠ lit "" →
      a.AWS.Mode = lit "json" → checkAuth a = none) := by
  refine ⟨?_, ?_, ?_, ?_, ?_, ?_⟩
  · unfold checkAuth
    by_cases ht : a.AuthType = lit "aws_sm"
    · by_cases hr : a.AWS.Region = lit ""
      · simp [ht, hr]
      · by_cases hs : a.AWS.SecretID = lit ""
        · simp [ht, hr, hs]
        · by_cases hm : a.AWS.Mode = lit "" ∨ a.AWS.Mode = lit "string" ∨ a.AWS.Mode = lit "json"
          · simp [ht, hr, hs, hm]
          · simp [ht, hr, hs, hm]
    · simp [ht]
  · intro ht hr _ _
    simp [checkAuth, ht, hr]
  · intro ht hr hs _
    simp [checkAuth, ht, hr, hs]
  · intro ht hr hs hm
    simp [checkAuth, ht, hr, hs, hm]
  · intro ht
    simp [checkAuth, ht]
  · intro ht hr hs hm
    simp [checkAuth, ht, hr, hs, hm]

theorem checkAuth_rules_witness :
    checkAuth ⟨lit "aws_sm", ⟨lit "us-east-1", lit "prod/db/app-postgres", lit "invalid", none⟩⟩
      = some (lit "mode") ∧
    checkAuth ⟨lit "aws_sm", ⟨lit "us-east-1", lit "prod/db/app-postgres", lit "json", some []⟩⟩
      = none ∧
    checkAuth ⟨lit "other", ⟨lit "", lit "", lit "invalid", none⟩⟩ = none :=
  ⟨(checkAuth_rules ⟨lit "aws_sm", ⟨lit "us-east-1", lit "prod/db/app-postgres", lit "invalid",
      none⟩⟩).2.2.2.1 rfl (by decide) (by decide) (by decide),
   (checkAuth_rules ⟨lit "aws_sm", ⟨lit "us-east-1", lit "prod/db/app-postgres", lit "json",
      some []⟩⟩).2.2.2.2.2 rfl (by decide) (by decide) rfl,
   (checkAuth_rules ⟨lit "other", ⟨lit "", lit "", lit "invalid", none⟩⟩).2.2.2.2.1
      (by decide)⟩

end Aws
